import Mathlib

/-!
Verification of the `workers-discord` library (a Discord interactions
handler and command-sync tool for Cloudflare Workers) against its
natural-language specification.

The development shallowly embeds the relevant TypeScript sources:

* `src/verify.ts` — `hex2bin`, `importKey`, `verifyRequest`;
* `src/structure.ts` — command/component validation, `getCommandName`,
  `getInteractionName`;
* `src/register.ts` — `consistentCommandOption`, `consistentContexts`,
  `updatedCommandProps`, `registerCommands` (the sync engine);
* `src/index.ts` — `handleCommandInteraction`, `handleComponentInteraction`,
  `handleInteraction`, `handleRequest`, `createHandler`.

JavaScript values that may be `undefined` are modelled with `Option`;
fallible/asynchronous outcomes with `Except`; machine bytes with `Nat`
reduced modulo 256 where the platform wraps.  All definitions are
executable.
-/

namespace WorkersDiscord

/-! ## JavaScript primitives used by the sources -/

/-- The ECMAScript white-space characters skipped by `parseInt` before
parsing (space, tab, LF, VT, FF, CR, NBSP, BOM, and the line/paragraph
separators). -/
def jsWhitespace (ch : Char) : Bool :=
  ch.toNat = 32 ∨ ch.toNat = 9 ∨ ch.toNat = 10 ∨ ch.toNat = 11 ∨ ch.toNat = 12 ∨
    ch.toNat = 13 ∨ ch.toNat = 160 ∨ ch.toNat = 0xFEFF ∨ ch.toNat = 0x2028 ∨ ch.toNat = 0x2029

/-- Is this character a hexadecimal digit accepted by `parseInt(_, 16)`
(`0`-`9`, `a`-`f`, `A`-`F`). -/
def isHexDigit (ch : Char) : Bool :=
  (48 ≤ ch.toNat ∧ ch.toNat ≤ 57) ∨ (97 ≤ ch.toNat ∧ ch.toNat ≤ 102) ∨
    (65 ≤ ch.toNat ∧ ch.toNat ≤ 70)

/-- Numeric value of a hexadecimal digit character (0 for anything else). -/
def hexVal (ch : Char) : Nat :=
  if 48 ≤ ch.toNat ∧ ch.toNat ≤ 57 then ch.toNat - 48
  else if 97 ≤ ch.toNat ∧ ch.toNat ≤ 102 then ch.toNat - 87
  else if 65 ≤ ch.toNat ∧ ch.toNat ≤ 70 then ch.toNat - 55
  else 0

/-- ECMAScript `parseInt(s, 16)` on a character sequence: skip leading
white space, read an optional sign, strip an optional `0x`/`0X` prefix,
then take the longest prefix of hexadecimal digits; the result is `none`
(JavaScript `NaN`) when that prefix is empty. -/
def jsParseIntHex (cs : List Char) : Option Int :=
  let cs1 := cs.dropWhile jsWhitespace
  let sign : Int :=
    match cs1 with
    | c :: _ => if c.toNat = 45 then -1 else 1
    | [] => 1
  let cs2 : List Char :=
    match cs1 with
    | c :: rest => if c.toNat = 45 ∨ c.toNat = 43 then rest else cs1
    | [] => cs1
  let cs3 : List Char :=
    match cs2 with
    | z :: x :: rest => if z.toNat = 48 ∧ (x.toNat = 120 ∨ x.toNat = 88) then rest else cs2
    | _ => cs2
  let digits := cs3.takeWhile isHexDigit
  if digits.isEmpty then none
  else some (sign * (digits.foldl (fun a ch => a * 16 + hexVal ch) (0 : Nat) : Int))

/-- Storing a JavaScript number into a `Uint8Array` slot: `NaN` becomes 0,
other integers are reduced modulo 2^8 (with a non-negative representative,
as the platform does). -/
def toUint8 (v : Option Int) : Nat :=
  match v with
  | none => 0
  | some i => (i % (256 : Int)).toNat

/-! ## `src/verify.ts` -/

/-- The `hex2bin` helper: for a string of length `n` it builds a
`Uint8Array` of `⌈n / 2⌉` slots, decoding the character pair at positions
`2i, 2i+1` with `parseInt(_, 16)` (strings are modelled as sequences of
characters). -/
def hex2bin (hex : String) : List Nat :=
  (List.range ((hex.length + 1) / 2)).map
    (fun i => toUint8 (jsParseIntHex ((hex.data.drop (2 * i)).take 2)))

/-- The `importKey` helper, restricted to the part that can fail on a raw
string: the hex-decoded raw key bytes handed to `crypto.subtle.importKey`. -/
def importKey (key : String) : List Nat := hex2bin key

/-- An incoming request as the verifier sees it: a header map.
`Headers.get` is case-insensitive, which `headersGet` mirrors. -/
structure JsRequest where
  method : String
  pathname : String
  headers : List (String × String)

/-- ASCII lower-casing of a character code, for case-insensitive header
name comparison. -/
def headerCharLower (n : Nat) : Nat := if 65 ≤ n ∧ n ≤ 90 then n + 32 else n

/-- Case-insensitive equality of header names. -/
def headerNameEq (a b : String) : Bool :=
  a.data.map (fun c => headerCharLower c.toNat) == b.data.map (fun c => headerCharLower c.toNat)

/-- Model of `Headers.get`: first header whose name matches
case-insensitively, `none` for an absent header (JavaScript `null`). -/
def headersGet (hs : List (String × String)) (k : String) : Option String :=
  (hs.find? (fun e => headerNameEq e.1 k)).map (fun e => e.2)

/-- Model of `crypto.subtle.verify` for the Ed25519 algorithm used by
`verifyRequest`: per the WebCrypto specification the platform resolves to
`false` — it does not throw — whenever the signature is not exactly 64
bytes; `ed` abstracts the curve verification for the imported public key,
taking the signature bytes and the signed message. -/
def subtleVerify (ed : List Nat → String → Bool) (signature : List Nat) (message : String) : Bool :=
  if signature.length = 64 then ed signature message else false

/-- The `verifyRequest` function: reads the two signature headers
(defaulting each absent header to the empty string), hex-decodes the
signature, and verifies it over `timestamp + bodyText`. -/
def verifyRequest (ed : List Nat → String → Bool) (request : JsRequest) (bodyText : String) : Bool :=
  let timestamp := (headersGet request.headers "X-Signature-Timestamp").getD ""
  let signature := hex2bin ((headersGet request.headers "X-Signature-Ed25519").getD "")
  subtleVerify ed signature (timestamp ++ bodyText)

/-! ## Data model: command options (`APIApplicationCommandOption`) -/

/-- A command option as carried over the Discord API.  JSON fields that
may be absent are `Option`; `options` holds the nested sub-options.
Choice values are kept abstract as numeric tags compared structurally,
which is how `dequal` compares them. -/
inductive JOpt : Type where
  | mk (type : Nat) (name : String) (description : String)
       (required : Option Bool) (choices : Option (List Nat))
       (options : Option (List JOpt)) : JOpt

mutual

/-- Structural (deep) equality on options, as `dequal` computes it. -/
def JOpt.beq : JOpt → JOpt → Bool
  | .mk t n d r c os, .mk t2 n2 d2 r2 c2 os2 =>
    t == t2 && n == n2 && d == d2 && r == r2 && c == c2 && JOpt.beqOptList os os2

/-- Deep equality on an optional list of options. -/
def JOpt.beqOptList : Option (List JOpt) → Option (List JOpt) → Bool
  | none, none => true
  | some l, some l2 => JOpt.beqList l l2
  | _, _ => false

/-- Deep equality on a list of options. -/
def JOpt.beqList : List JOpt → List JOpt → Bool
  | [], [] => true
  | a :: as, b :: bs => JOpt.beq a b && JOpt.beqList as bs
  | _, _ => false

end

/-- Deep equality on options coincides with propositional equality (proved
by strong induction on the size of the option tree). -/
theorem JOpt.beq_iff_all : ∀ k : Nat,
    (∀ a b : JOpt, JOpt.beq a b = true ↔ a = b) ∧
    (∀ l l2 : List JOpt, sizeOf l ≤ k → (JOpt.beqList l l2 = true ↔ l = l2)) ∧
    (∀ os os2 : Option (List JOpt), sizeOf os ≤ k → (JOpt.beqOptList os os2 = true ↔ os = os2)) := by
  have main : ∀ k : Nat,
      (∀ a b : JOpt, sizeOf a ≤ k → (JOpt.beq a b = true ↔ a = b)) ∧
      (∀ l l2 : List JOpt, sizeOf l ≤ k → (JOpt.beqList l l2 = true ↔ l = l2)) ∧
      (∀ os os2 : Option (List JOpt), sizeOf os ≤ k → (JOpt.beqOptList os os2 = true ↔ os = os2)) := by
    intro k
    induction k using Nat.strong_induction_on with
    | _ k ih =>
      refine ⟨?_, ?_, ?_⟩
      · intro a b hs
        match a, b with
        | .mk t n d r c os, .mk t2 n2 d2 r2 c2 os2 =>
          rw [JOpt.beq]
          have hos : sizeOf os < sizeOf (JOpt.mk t n d r c os) := by
            simp only [JOpt.mk.sizeOf_spec]; omega
          have hlt : sizeOf os < k := by omega
          have hiff := (ih (sizeOf os) hlt).2.2 os os2 le_rfl
          simp only [Bool.and_eq_true, beq_iff_eq, hiff, JOpt.mk.injEq]
          tauto
      · intro l l2 hs
        match l, l2 with
        | [], [] => simp [JOpt.beqList]
        | [], b :: bs => simp [JOpt.beqList]
        | a :: as, [] => simp [JOpt.beqList]
        | a :: as, b :: bs =>
          rw [JOpt.beqList]
          have hsz : sizeOf (a :: as) = 1 + sizeOf a + sizeOf as := by simp
          have h1 : sizeOf a < k := by omega
          have h2 : sizeOf as < k := by omega
          have ha := (ih (sizeOf a) h1).1 a b le_rfl
          have has := (ih (sizeOf as) h2).2.1 as bs le_rfl
          simp only [Bool.and_eq_true, ha, has, List.cons.injEq]
      · intro os os2 hs
        match os, os2 with
        | none, none => simp [JOpt.beqOptList]
        | none, some l2 => simp [JOpt.beqOptList]
        | some l, none => simp [JOpt.beqOptList]
        | some l, some l2 =>
          rw [JOpt.beqOptList]
          have hsz : sizeOf (some l : Option (List JOpt)) = 1 + sizeOf l := by simp
          have h1 : sizeOf l < k := by omega
          have hiff := (ih (sizeOf l) h1).2.1 l l2 le_rfl
          simp only [hiff, Option.some.injEq]
  intro k
  exact ⟨fun a b => (main (sizeOf a)).1 a b le_rfl, (main k).2.1, (main k).2.2⟩

instance : DecidableEq JOpt := fun a b =>
  decidable_of_iff (JOpt.beq a b = true) ((JOpt.beq_iff_all 0).1 a b)

/-! ## `src/register.ts`: option normalization and the command diff -/

mutual

/-- The `consistentCommandOption` helper: fills in the defaulted fields of
an option before a deep-equal check (`required` defaults to `false`,
`choices` and `options` to `[]`), recursing into sub-options.  The result
always has every optional field present, exactly like the literal object
the source builds. -/
def consistentCommandOption : JOpt → JOpt
  | .mk t n d r c os =>
    JOpt.mk t n d (some (r.getD false)) (some (c.getD []))
      (some (consistentOptionList os))

/-- Normalization of the (possibly absent) sub-option list of an option:
`('options' in obj && obj.options?.map(consistentCommandOption)) || []`. -/
def consistentOptionList : Option (List JOpt) → List JOpt
  | none => []
  | some [] => []
  | some (o :: os) => consistentCommandOption o :: consistentOptionList (some os)

end

/-- Normalization applied to a whole (possibly absent) option list of a
command: `cmd.options?.map(consistentCommandOption)`.  Absence is kept,
because `dequal(undefined, [])` is `false`. -/
def consistentOptions : Option (List JOpt) → Option (List JOpt)
  | none => none
  | some l => some (l.map consistentCommandOption)

/-- JavaScript `[...new Set(arr)]`: duplicates removed, first occurrences
kept in order. -/
def jsSetDedup (l : List Nat) : List Nat :=
  l.foldl (fun acc a => if a ∈ acc then acc else acc ++ [a]) []

/-- Default JavaScript `Array.prototype.sort` comparison: elements are
compared as strings. -/
def jsStrLe (a b : Nat) : Bool := decide (toString a ≤ toString b)

/-- Insert into a list sorted by the JavaScript default comparison. -/
def jsSortInsert (a : Nat) : List Nat → List Nat
  | [] => [a]
  | b :: bs => if jsStrLe a b then a :: b :: bs else b :: jsSortInsert a bs

/-- JavaScript `arr.sort()` (default comparator, i.e. by string value). -/
def jsSort (l : List Nat) : List Nat := l.foldr jsSortInsert []

/-- The `consistentContexts` helper: `arr && [ ...new Set(arr) ].sort()` —
an absent array stays absent, a present one is deduplicated and sorted. -/
def consistentContexts (arr : Option (List Nat)) : Option (List Nat) :=
  arr.map (fun l => jsSort (jsSetDedup l))

/-- The `contexts` object of a command definition
(`{ installation?, interaction? }`). -/
structure CmdContexts where
  installation : Option (List Nat)
  interaction : Option (List Nat)
deriving DecidableEq

/-- `CommandMeta` — the metadata fields of a command definition that the
diff and the sync engine read.  For a chat-input command `description` is
a (non-empty) string and `options` may be present; for a context-menu
command both are absent.  `type` absent means chat input. -/
structure CommandMeta where
  name : String
  type : Option Nat
  description : Option String
  options : Option (List JOpt)
  contexts : Option CmdContexts
deriving DecidableEq

/-- `ApplicationCommandType.ChatInput`. -/
def chatInputType : Nat := 1

/-- `command.type ?? ApplicationCommandType.ChatInput`. -/
def CommandMeta.typeD (c : CommandMeta) : Nat := c.type.getD chatInputType

/-- `command.contexts?.installation`. -/
def CommandMeta.ctxInstallation (c : CommandMeta) : Option (List Nat) :=
  c.contexts.bind (fun x => x.installation)

/-- `command.contexts?.interaction`. -/
def CommandMeta.ctxInteraction (c : CommandMeta) : Option (List Nat) :=
  c.contexts.bind (fun x => x.interaction)

/-- A command as returned by the Discord API (`APIApplicationCommand`),
restricted to the fields `registerCommands` reads.  `id` addresses the
command in PATCH/DELETE calls; `type` and `description` are always
present in an API response; the rest are optional JSON fields
(`contexts` being `null` and being absent both map to `none`). -/
structure RemoteCmd where
  id : Nat
  name : String
  type : Nat
  description : String
  options : Option (List JOpt)
  integration_types : Option (List Nat)
  contexts : Option (List Nat)
deriving DecidableEq

/-- The `CommandMeta` literal `registerCommands` builds from a remote
command before diffing it against the code definition. -/
def RemoteCmd.meta (d : RemoteCmd) : CommandMeta :=
  { name := d.name
    type := some d.type
    description := some d.description
    options := d.options
    contexts := some ⟨d.integration_types, d.contexts⟩ }

/-- The patch object built by `updatedCommandProps`.  The outer `Option`
records whether the key was assigned at all (so it counts towards
`Object.keys(diff).length`); the inner value is the assigned JavaScript
value, itself possibly `undefined`. -/
structure CmdPatch where
  name : Option String
  type : Option (Option Nat)
  description : Option (Option String)
  options : Option (Option (List JOpt))
  integration_types : Option (Option (List Nat))
  contexts : Option (Option (List Nat))
deriving DecidableEq

/-- The keys assigned in a patch object, in assignment order —
`Object.keys(diff)`. -/
def CmdPatch.keys (p : CmdPatch) : List String :=
  (if p.name.isSome then ["name"] else []) ++
  (if p.type.isSome then ["type"] else []) ++
  (if p.description.isSome then ["description"] else []) ++
  (if p.options.isSome then ["options"] else []) ++
  (if p.integration_types.isSome then ["integration_types"] else []) ++
  (if p.contexts.isSome then ["contexts"] else [])

/-- The `updatedCommandProps` function: each field of the patch is
assigned exactly when the corresponding comparison between the old and
new command fails (`dequal` for the structured fields, strict equality
for the scalar ones); the assigned value is the new command's raw field. -/
def updatedCommandProps (oldCmd newCmd : CommandMeta) : CmdPatch :=
  { name := if oldCmd.name ≠ newCmd.name then some newCmd.name else none
    type := if oldCmd.type ≠ some newCmd.typeD then some newCmd.type else none
    description :=
      if oldCmd.description ≠ newCmd.description then some newCmd.description else none
    options :=
      if consistentOptions oldCmd.options ≠ consistentOptions newCmd.options then
        some newCmd.options
      else none
    integration_types :=
      if consistentContexts oldCmd.ctxInstallation ≠ consistentContexts newCmd.ctxInstallation then
        some newCmd.ctxInstallation
      else none
    contexts :=
      if consistentContexts oldCmd.ctxInteraction ≠ consistentContexts newCmd.ctxInteraction then
        some newCmd.ctxInteraction
      else none }

/-- The JSON body actually sent by a PATCH: `JSON.stringify` drops every
key whose value is `undefined`. -/
structure PatchBody where
  name : Option String
  type : Option Nat
  description : Option String
  options : Option (List JOpt)
  integration_types : Option (List Nat)
  contexts : Option (List Nat)
deriving DecidableEq

/-- The keys present in a serialized PATCH body. -/
def PatchBody.keys (b : PatchBody) : List String :=
  (if b.name.isSome then ["name"] else []) ++
  (if b.type.isSome then ["type"] else []) ++
  (if b.description.isSome then ["description"] else []) ++
  (if b.options.isSome then ["options"] else []) ++
  (if b.integration_types.isSome then ["integration_types"] else []) ++
  (if b.contexts.isSome then ["contexts"] else [])

/-- Serialization of a patch object into the JSON body sent over the
wire: assigned keys survive, but an assigned key whose value is
`undefined` is dropped by `JSON.stringify`. -/
def serializePatch (p : CmdPatch) : PatchBody :=
  { name := p.name
    type := p.type.bind id
    description := p.description.bind id
    options := p.options.bind id
    integration_types := p.integration_types.bind id
    contexts := p.contexts.bind id }

/-! ## `src/structure.ts`: validation and registry keys -/

/-- The `isCommand` validator restricted to the metadata the model
carries (the `execute` field is a function by construction here, so its
check always passes): a command needs a non-empty name; a chat-input or
primary-entry-point command (type absent, 1 or 4) needs a non-empty
description; any other (context-menu) command must have a falsy
description and no non-empty options array. -/
def isCommand (c : CommandMeta) : Bool :=
  if c.name.length = 0 then false
  else if c.type = none ∨ c.type = some 1 ∨ c.type = some 4 then
    match c.description with
    | some d => d.length != 0
    | none => false
  else
    (match c.description with
     | some d => d.length == 0
     | none => true) &&
    (match c.options with
     | some l => l.isEmpty
     | none => true)

/-- The `getCommandName` registry key: commands may share a name across
types, so the key is the name together with the defaulted type. -/
def getCommandName (c : CommandMeta) : String :=
  c.name ++ " (type: " ++ toString c.typeD ++ ")"

/-- The `getInteractionName` lookup key for an incoming command
interaction: its `data.name` and its `data.type` (always present). -/
def getInteractionName (name : String) (type : Nat) : String :=
  name ++ " (type: " ++ toString type ++ ")"

/-- The `validateCommands` reduction: invalid entries are dropped, and a
command whose registry key is already taken is dropped too (first one
wins); `Object.values` then yields the kept commands in insertion
order. -/
def validateCommands (cmds : List CommandMeta) : List CommandMeta :=
  cmds.foldl
    (fun acc c =>
      if isCommand c && acc.all (fun a => getCommandName a != getCommandName c) then
        acc ++ [c]
      else acc)
    []

/-! ## `src/register.ts`: the sync engine

collapsed to its remote-call plan.  `registerCommandsCalls` computes, from
the code's command list and the remote registry returned by the initial
GET, exactly which DELETE, PATCH and POST calls one run of
`registerCommands` issues; `registerCommandsRemote` is the remote registry
after those calls succeed. -/

/-- The JSON body of a `registerCommand` POST: the literal
`{ name, description, type, options, integration_types, contexts }` the
source builds (keys with `undefined` values are dropped by
`JSON.stringify`, hence the `Option`s). -/
structure CreateBody where
  name : String
  description : Option String
  type : Option Nat
  options : Option (List JOpt)
  integration_types : Option (List Nat)
  contexts : Option (List Nat)
deriving DecidableEq

/-- The create body built from a command definition in the register
phase. -/
def mkCreateBody (c : CommandMeta) : CreateBody :=
  { name := c.name
    description := c.description
    type := c.type
    options := c.options
    integration_types := c.ctxInstallation
    contexts := c.ctxInteraction }

/-- The remote-mutating calls of one sync run, per phase and in issue
order. -/
structure SyncPlan where
  removes : List RemoteCmd
  patches : List (RemoteCmd × CmdPatch)
  creates : List CreateBody
deriving DecidableEq

/-- `discordCommands.find(c => c.name === command.name && c.type ===
(command.type ?? ApplicationCommandType.ChatInput))` — the remote command
a code command is matched against in the patch and register phases. -/
def matchRemote (remote : List RemoteCmd) (c : CommandMeta) : Option RemoteCmd :=
  remote.find? (fun d => d.name == c.name && d.type == c.typeD)

/-- One run of `registerCommands`, as the calls it issues:

* remove phase — every remote command with no code command of the same
  name (the name alone is compared here);
* patch phase — every code command matched by `(name, defaulted type)`
  whose diff assigns at least one key, with that diff;
* register phase — every code command with no `(name, defaulted type)`
  match, as a POST body. -/
def registerCommandsCalls (commands : List CommandMeta) (remote : List RemoteCmd) : SyncPlan :=
  let cmds := validateCommands commands
  { removes := remote.filter (fun d => !(cmds.any (fun c => c.name == d.name)))
    patches := cmds.filterMap (fun c =>
      (matchRemote remote c).bind (fun d =>
        let diff := updatedCommandProps d.meta c
        if diff.keys.length = 0 then none else some (d, diff)))
    creates := (cmds.filter (fun c => (matchRemote remote c).isNone)).map mkCreateBody }

/-- Total number of remote-mutating calls in a plan. -/
def SyncPlan.totalCalls (p : SyncPlan) : Nat :=
  p.removes.length + p.patches.length + p.creates.length

/-- Effect of a PATCH body on the stored remote command: exactly the keys
present in the serialized body are overwritten. -/
def applyPatchBody (d : RemoteCmd) (b : PatchBody) : RemoteCmd :=
  { d with
    name := b.name.getD d.name
    type := b.type.getD d.type
    description := b.description.getD d.description
    options := match b.options with | some l => some l | none => d.options
    integration_types :=
      match b.integration_types with | some l => some l | none => d.integration_types
    contexts := match b.contexts with | some l => some l | none => d.contexts }

/-- The remote command Discord stores for a successful create.  The API
response type forces `type` (defaulted to chat input when the body
omitted it, as documented) and `description` (an empty string when the
body omitted it); the optional fields echo what the body carried. -/
def createdRemote (newId : Nat) (b : CreateBody) : RemoteCmd :=
  { id := newId
    name := b.name
    type := b.type.getD chatInputType
    description := b.description.getD ""
    options := b.options
    integration_types := b.integration_types
    contexts := b.contexts }

/-- An id strictly above every id in the registry, for freshly created
commands. -/
def maxId (remote : List RemoteCmd) : Nat :=
  remote.foldl (fun m d => Nat.max m d.id) 0

/-- Effect of one issued PATCH on one stored remote command: the command
it addresses (by id) receives the serialized body, any other command is
untouched. -/
def patchStep (dp : RemoteCmd × CmdPatch) (d : RemoteCmd) : RemoteCmd :=
  if d.id = dp.1.id then applyPatchBody d (serializePatch dp.2) else d

/-- The remote registry after one successful run of `registerCommands`:
removed commands are gone, each PATCH body is applied to the command it
addresses, and created commands are appended with fresh ids. -/
def registerCommandsRemote (commands : List CommandMeta) (remote : List RemoteCmd) : List RemoteCmd :=
  let cmds := validateCommands commands
  let plan := registerCommandsCalls commands remote
  let survivors := remote.filter (fun d => cmds.any (fun c => c.name == d.name))
  let patched := plan.patches.foldl (fun rs dp => rs.map (patchStep dp)) survivors
  patched ++ plan.creates.enum.map (fun ic => createdRemote (maxId remote + 1 + ic.1) ic.2)

/-! ## `src/index.ts`: the interaction dispatcher

A handler's `execute` may return a response synchronously, return a
promise, or throw synchronously; a returned promise either resolves to a
response or rejects.  Errors are numeric tags.  The dispatcher functions
are `async`, so their outcome is a settled promise: `Except.ok` for a
resolution, `Except.error` for a rejection.  Next to the outcome they
return the log of `execute` invocations (lookup key and handler), in
order. -/

/-- The concrete `Response` values the dispatcher code builds, plus the
opaque responses handlers resolve with. -/
inductive JResp : Type where
  | empty (status : Nat)
  | pong
  | ephemeralError
  | health
  | handlerResp (tag : Nat)
deriving DecidableEq

/-- Outcome of the promise a handler returned. -/
inductive PromiseOut : Type where
  | resolves (r : JResp)
  | rejects (e : Nat)
deriving DecidableEq

/-- Behaviour of a handler's `execute` function when invoked. -/
inductive ExecBehavior : Type where
  | throws (e : Nat)
  | returns (p : PromiseOut)
deriving DecidableEq

/-- Lookup in a registry object (`commands[name]` / `components[id]`):
the first binding for the key, `undefined` when there is none. -/
def lookupReg (reg : List (String × ExecBehavior)) (k : String) : Option ExecBehavior :=
  (reg.find? (fun e => e.1 == k)).map (fun e => e.2)

/-- The `handleCommandInteraction` dispatcher.  The lookup key is
`getInteractionName` of the interaction; an unregistered key yields a
bare 404 and no invocation.  The `execute` call sits in a
`try { return commands[name].execute(...) } catch` with no `await`: a
synchronous throw is caught and converted into the ephemeral error
message, but a returned promise is adopted un-awaited, so its rejection
bypasses the `catch` and rejects the dispatcher's own promise. -/
def handleCommandInteraction (commands : List (String × ExecBehavior))
    (name : String) (type : Nat) : Except Nat JResp × List (String × ExecBehavior) :=
  let key := getInteractionName name type
  match lookupReg commands key with
  | none => (Except.ok (JResp.empty 404), [])
  | some h =>
    match h with
    | .throws _ => (Except.ok JResp.ephemeralError, [(key, h)])
    | .returns (.resolves r) => (Except.ok r, [(key, h)])
    | .returns (.rejects e) => (Except.error e, [(key, h)])

/-- The `handleComponentInteraction` dispatcher: same shape as the
command dispatcher, keyed by the component `custom_id`, with a bare 500
from the `catch` branch. -/
def handleComponentInteraction (components : List (String × ExecBehavior))
    (customId : String) : Except Nat JResp × List (String × ExecBehavior) :=
  match lookupReg components customId with
  | none => (Except.ok (JResp.empty 404), [])
  | some h =>
    match h with
    | .throws _ => (Except.ok (JResp.empty 500), [(customId, h)])
    | .returns (.resolves r) => (Except.ok r, [(customId, h)])
    | .returns (.rejects e) => (Except.error e, [(customId, h)])

/-- A parsed interaction payload, by `interaction.type`. -/
inductive Interaction : Type where
  | ping
  | command (name : String) (type : Nat)
  | component (customId : String)
  | unknown (type : Nat)

/-- The `handleInteraction` switch.  `valid` abstracts the boolean
outcome of the signature check on the request; `int` is the payload
parsed from the body. -/
def handleInteraction (valid : Bool) (int : Interaction)
    (commands components : List (String × ExecBehavior)) :
    Except Nat JResp × List (String × ExecBehavior) :=
  if valid = false then (Except.ok (JResp.empty 401), [])
  else
    match int with
    | .ping => (Except.ok JResp.pong, [])
    | .command n t => handleCommandInteraction commands n t
    | .component cid => handleComponentInteraction components cid
    | .unknown _ => (Except.ok (JResp.empty 501), [])

/-- The `handleRequest` router: `POST /interactions` and `GET /health`
are handled; any other method/path pair falls off the end of the
function, i.e. resolves to `undefined` (`none`). -/
def handleRequest (request : JsRequest) (valid : Bool) (int : Interaction)
    (commands components : List (String × ExecBehavior)) :
    Option (Except Nat JResp × List (String × ExecBehavior)) :=
  if request.method = "POST" ∧ request.pathname = "/interactions" then
    some (handleInteraction valid int commands components)
  else if request.method = "GET" ∧ request.pathname = "/health" then
    some (Except.ok JResp.health, [])
  else none

/-- A command handler definition as given to `createHandler`: its
metadata plus the behaviour of its `execute` function. -/
structure HCommand where
  meta : CommandMeta
  behavior : ExecBehavior

/-- A component handler definition as given to `createHandler`. -/
structure HComponent where
  name : String
  behavior : ExecBehavior

/-- `validateCommands` as used for the dispatch registry: valid commands
keyed by `getCommandName`, first binding per key wins. -/
def validateHCommands (cmds : List HCommand) : List (String × ExecBehavior) :=
  cmds.foldl
    (fun acc c =>
      if isCommand c.meta && acc.all (fun a => a.1 != getCommandName c.meta) then
        acc ++ [(getCommandName c.meta, c.behavior)]
      else acc)
    []

/-- The `isComponent` validator on the modelled fields: a non-empty name
(the `execute` check passes by construction). -/
def isComponent (c : HComponent) : Bool := c.name.length != 0

/-- `validateComponents`: valid components keyed by their name, first
binding per key wins. -/
def validateHComponents (cmps : List HComponent) : List (String × ExecBehavior) :=
  cmps.foldl
    (fun acc c =>
      if isComponent c && acc.all (fun a => a.1 != c.name) then
        acc ++ [(c.name, c.behavior)]
      else acc)
    []

/-- `createHandler`: validates the given commands and components once and
returns the worker fetch handler, a closure around `handleRequest`. -/
def createHandler (commands : List HCommand) (components : List HComponent) :
    JsRequest → Bool → Interaction →
      Option (Except Nat JResp × List (String × ExecBehavior)) :=
  fun request valid int =>
    handleRequest request valid int (validateHCommands commands) (validateHComponents components)

/-! ## `src/register.ts`: pacing of the remote-mutating calls

Each of the three phases is a `for` loop that awaits its calls one by
one, and before the call at (0-based) index `i ≥ 5` first awaits a
`setTimeout` of `ratelimit` milliseconds.  `phaseTrace` is the resulting
event sequence of one phase. -/

/-- `20_000 / 5` milliseconds, the fixed pause window. -/
def ratelimit : Nat := 20000 / 5

/-- Events of a sync phase: the `idx`-th remote-mutating call of phase
`phase`, or an awaited pause of `ms` milliseconds. -/
inductive SyncEvent : Type where
  | call (phase : Nat) (idx : Nat)
  | pause (ms : Nat)
deriving DecidableEq

/-- The event sequence of one phase with `n` calls: for each `i < n`, a
pause first when `i ≥ 5`, then call `i`. -/
def phaseTrace (phase : Nat) : Nat → List SyncEvent
  | 0 => []
  | n + 1 =>
    phaseTrace phase n ++
      (if 5 ≤ n then [SyncEvent.pause ratelimit] else []) ++ [SyncEvent.call phase n]

/-- The full event sequence of one `registerCommands` run: the remove
phase (0), then the patch phase (1), then the register phase (2), each
paced independently. -/
def registerCommandsTrace (plan : SyncPlan) : List SyncEvent :=
  phaseTrace 0 plan.removes.length ++ phaseTrace 1 plan.patches.length ++
    phaseTrace 2 plan.creates.length

/-! ## General lemmas -/

theorem hex2bin_length (s : String) : (hex2bin s).length = (s.length + 1) / 2 := by
  simp [hex2bin]

theorem toUint8_lt (v : Option Int) : toUint8 v < 256 := by
  match v with
  | none => simp [toUint8]
  | some i =>
    simp only [toUint8]
    have h0 : (0 : Int) < 256 := by omega
    have h1 : i % 256 < 256 := Int.emod_lt_of_pos i h0
    have h2 : 0 ≤ i % 256 := Int.emod_nonneg i (by omega)
    omega

/-! ## Claim theorems -/

/-- C10: for every inbound request whose method and path are neither
`POST /interactions` nor `GET /health`, the handler produced by
`createHandler` returns no response at all (`none`, JavaScript
`undefined`), not an error response. -/
theorem c10_unrouted_request_returns_undefined
    (commands : List HCommand) (components : List HComponent)
    (request : JsRequest) (valid : Bool) (int : Interaction)
    (h1 : ¬ (request.method = "POST" ∧ request.pathname = "/interactions"))
    (h2 : ¬ (request.method = "GET" ∧ request.pathname = "/health")) :
    createHandler commands components request valid int = none := by
  simp [createHandler, handleRequest, h1, h2]

/-- Witness for C10 at a concrete `PUT /other` request. -/
theorem c10_unrouted_request_returns_undefined_witness :
    createHandler [] [] ⟨"PUT", "/other", []⟩ true Interaction.ping = none :=
  c10_unrouted_request_returns_undefined [] [] ⟨"PUT", "/other", []⟩ true Interaction.ping
    (by decide) (by decide)

/-- C7: for a verified command (resp. component) interaction, an
unregistered lookup key — `getInteractionName` for commands, the
`custom_id` for components — yields a bare 404 with no handler invoked,
while a registered key invokes exactly that key's handler exactly once. -/
theorem c7_lookup_dispatch
    (commands components : List (String × ExecBehavior))
    (name : String) (type : Nat) (customId : String) :
    (lookupReg commands (getInteractionName name type) = none →
      handleCommandInteraction commands name type = (Except.ok (JResp.empty 404), [])) ∧
    (∀ h, lookupReg commands (getInteractionName name type) = some h →
      (handleCommandInteraction commands name type).2 = [(getInteractionName name type, h)]) ∧
    (lookupReg components customId = none →
      handleComponentInteraction components customId = (Except.ok (JResp.empty 404), [])) ∧
    (∀ h, lookupReg components customId = some h →
      (handleComponentInteraction components customId).2 = [(customId, h)]) := by
  refine ⟨?_, ?_, ?_, ?_⟩
  · intro hnone
    simp [handleCommandInteraction, hnone]
  · intro h hsome
    simp only [handleCommandInteraction, hsome]
    match h with
    | .throws e => rfl
    | .returns (.resolves r) => rfl
    | .returns (.rejects e) => rfl
  · intro hnone
    simp [handleComponentInteraction, hnone]
  · intro h hsome
    simp only [handleComponentInteraction, hsome]
    match h with
    | .throws e => rfl
    | .returns (.resolves r) => rfl
    | .returns (.rejects e) => rfl

/-- Witness for C7: a registry holding one command handler under the key
of `ping` type 1; looking up a registered key runs exactly that handler
once, an unregistered name gives the bare 404 and runs nothing. -/
theorem c7_lookup_dispatch_witness :
    (handleCommandInteraction
        [(getInteractionName "ping" 1, ExecBehavior.returns (PromiseOut.resolves (JResp.handlerResp 3)))]
        "ping" 1).2 =
      [(getInteractionName "ping" 1, ExecBehavior.returns (PromiseOut.resolves (JResp.handlerResp 3)))] ∧
    handleCommandInteraction
        [(getInteractionName "ping" 1, ExecBehavior.returns (PromiseOut.resolves (JResp.handlerResp 3)))]
        "pong" 1 = (Except.ok (JResp.empty 404), []) := by
  constructor
  · exact (c7_lookup_dispatch
      [(getInteractionName "ping" 1, ExecBehavior.returns (PromiseOut.resolves (JResp.handlerResp 3)))]
      [] "ping" 1 "x").2.1
      (ExecBehavior.returns (PromiseOut.resolves (JResp.handlerResp 3))) (by decide)
  · exact (c7_lookup_dispatch
      [(getInteractionName "ping" 1, ExecBehavior.returns (PromiseOut.resolves (JResp.handlerResp 3)))]
      [] "pong" 1 "x").1 (by decide)

/-- C2 (code bug): a handler that throws synchronously is caught and
converted (ephemeral message for commands, bare 500 for components), but
because the dispatcher returns the handler's promise from inside
`try`/`catch` without `await`, a rejected promise is not caught: the
dispatch outcome itself is a rejection (`Except.error`), contradicting
the claim that errors never propagate past the dispatcher boundary. -/
theorem c2_rejected_promise_escapes_dispatcher :
    handleCommandInteraction
        [(getInteractionName "foo" 1, ExecBehavior.returns (PromiseOut.rejects 7))] "foo" 1 =
      (Except.error 7,
        [(getInteractionName "foo" 1, ExecBehavior.returns (PromiseOut.rejects 7))]) ∧
    handleComponentInteraction [("btn", ExecBehavior.returns (PromiseOut.rejects 9))] "btn" =
      (Except.error 9, [("btn", ExecBehavior.returns (PromiseOut.rejects 9))]) ∧
    handleCommandInteraction [(getInteractionName "foo" 1, ExecBehavior.throws 5)] "foo" 1 =
      (Except.ok JResp.ephemeralError,
        [(getInteractionName "foo" 1, ExecBehavior.throws 5)]) ∧
    handleComponentInteraction [("btn", ExecBehavior.throws 5)] "btn" =
      (Except.ok (JResp.empty 500), [("btn", ExecBehavior.throws 5)]) := by
  refine ⟨?_, ?_, ?_, ?_⟩ <;> rfl

theorem hexVal_le (ch : Char) : hexVal ch ≤ 15 := by
  simp only [hexVal]
  split_ifs <;> omega

theorem jsParseIntHex_pair_hex (c1 c2 : Char)
    (h1 : isHexDigit c1 = true) (h2 : isHexDigit c2 = true) :
    jsParseIntHex [c1, c2] = some ((16 * hexVal c1 + hexVal c2 : Nat) : Int) := by
  have hx1 : (48 ≤ c1.toNat ∧ c1.toNat ≤ 57) ∨ (97 ≤ c1.toNat ∧ c1.toNat ≤ 102) ∨
      (65 ≤ c1.toNat ∧ c1.toNat ≤ 70) := by simpa [isHexDigit] using h1
  have hx2 : (48 ≤ c2.toNat ∧ c2.toNat ≤ 57) ∨ (97 ≤ c2.toNat ∧ c2.toNat ≤ 102) ∨
      (65 ≤ c2.toNat ∧ c2.toNat ≤ 70) := by simpa [isHexDigit] using h2
  have hw1 : jsWhitespace c1 = false := by
    simp only [jsWhitespace, decide_eq_false_iff_not]
    omega
  have h45b : ¬ c1.toNat = 45 := by omega
  have h43 : ¬ c1.toNat = 43 := by omega
  have h0x : ¬ (c1.toNat = 48 ∧ (c2.toNat = 120 ∨ c2.toNat = 88)) := by omega
  simp only [jsParseIntHex, List.dropWhile_cons, hw1, Bool.false_eq_true, if_false,
    h45b, h43, h0x, or_self, List.takeWhile_cons, h1, h2, if_true, if_false, ite_false,
    ite_true, List.takeWhile_nil, List.isEmpty_cons, List.foldl_cons, List.foldl_nil]
  congr 1
  push_cast
  ring

theorem c9_helper_getD (s : String) (i : Nat) (hi : i < (hex2bin s).length) :
    (hex2bin s).getD i 1 = toUint8 (jsParseIntHex ((s.data.drop (2 * i)).take 2)) := by
  rw [hex2bin_length] at hi
  simp [hex2bin, List.getD_eq_getElem?_getD, List.getElem?_map, List.getElem?_range, hi]

/-- C9 (counterexample): the pair `az` is not hexadecimal, yet `hex2bin`
decodes it to 10 (JavaScript `parseInt` takes the longest valid prefix,
here `a`), not to 0 as the claim states. -/
theorem c9_counterexample :
    ¬ ("az".data.all isHexDigit = true) ∧ hex2bin "az" = [10] ∧ hex2bin "az" ≠ [0] := by
  refine ⟨by decide, by decide, by decide⟩

/-- C9 (amended): for every input string, `hex2bin` terminates and
returns `⌈length / 2⌉` bytes, each below 256; a pair on which
`parseInt(_, 16)` has no parseable hexadecimal prefix (`NaN`) decodes to
0, and a pair of two hexadecimal digits decodes to its value. -/
theorem c9_hex2bin_total_shape (s : String) :
    (hex2bin s).length = (s.length + 1) / 2 ∧
    (∀ b ∈ hex2bin s, b < 256) ∧
    (∀ i, i < (hex2bin s).length →
      jsParseIntHex ((s.data.drop (2 * i)).take 2) = none → (hex2bin s).getD i 1 = 0) ∧
    (∀ i c1 c2, i < (hex2bin s).length →
      (s.data.drop (2 * i)).take 2 = [c1, c2] →
      isHexDigit c1 = true → isHexDigit c2 = true →
        (hex2bin s).getD i 1 = 16 * hexVal c1 + hexVal c2) := by
  refine ⟨hex2bin_length s, ?_, ?_, ?_⟩
  · intro b hb
    simp only [hex2bin, List.mem_map] at hb
    obtain ⟨i, _, rfl⟩ := hb
    exact toUint8_lt _
  · intro i hi hnan
    rw [c9_helper_getD s i hi, hnan]
    rfl
  · intro i c1 c2 hi hpair h1 h2
    rw [c9_helper_getD s i hi, hpair, jsParseIntHex_pair_hex c1 c2 h1 h2]
    have hb1 := hexVal_le c1
    have hb2 := hexVal_le c2
    simp only [toUint8]
    rw [Int.emod_eq_of_lt (by positivity) (by push_cast; omega)]
    push_cast
    omega

/-- Witness for C9 at the concrete string `4a!x`: two slots, the valid
pair `4a` decodes to its value 74, the unparseable pair `!x` to 0. -/
theorem c9_hex2bin_total_shape_witness :
    (hex2bin "4a!x").length = 2 ∧ (hex2bin "4a!x").getD 0 1 = 74 ∧
      (hex2bin "4a!x").getD 1 1 = 0 := by
  obtain ⟨hlen, _, hnan, hhex⟩ := c9_hex2bin_total_shape "4a!x"
  refine ⟨by rw [hlen]; rfl, ?_, ?_⟩
  · have := hhex 0 '4' 'a' (by rw [hlen]; decide) (by decide) (by decide) (by decide)
    rw [this]
    decide
  · exact hnan 1 (by rw [hlen]; decide) (by decide)

/-- C6: the verifier never throws; an absent signature header makes it
return `false` outright (an empty signature is not 64 bytes); an absent
timestamp header is treated as the empty string, so verification runs
over `"" + body`; and a present but malformed signature header whose
length cannot decode to 64 bytes also yields `false`. -/
theorem c6_verify_missing_or_malformed_headers
    (ed : List Nat → String → Bool) (request : JsRequest) (bodyText : String) :
    (headersGet request.headers "X-Signature-Ed25519" = none →
      verifyRequest ed request bodyText = false) ∧
    (headersGet request.headers "X-Signature-Timestamp" = none →
      verifyRequest ed request bodyText =
        subtleVerify ed
          (hex2bin ((headersGet request.headers "X-Signature-Ed25519").getD ""))
          ("" ++ bodyText)) ∧
    (∀ s, headersGet request.headers "X-Signature-Ed25519" = some s →
      s.length ≤ 126 ∨ 129 ≤ s.length → verifyRequest ed request bodyText = false) := by
  refine ⟨?_, ?_, ?_⟩
  · intro h
    have hlen : (hex2bin "").length = 0 := by decide
    simp [verifyRequest, h, subtleVerify, hlen]
  · intro h
    simp [verifyRequest, h]
  · intro s hs hlen
    have hl : (hex2bin s).length = (s.length + 1) / 2 := hex2bin_length s
    simp only [verifyRequest, hs, Option.getD_some, subtleVerify, hl]
    have : ¬ ((s.length + 1) / 2 = 64) := by omega
    simp [this]

/-- Witness for C6: with both headers absent the verifier returns
`false` even for an always-accepting curve check, and a short malformed
signature header also yields `false`. -/
theorem c6_verify_missing_or_malformed_headers_witness :
    verifyRequest (fun _ _ => true) ⟨"POST", "/interactions", []⟩ "body" = false ∧
    verifyRequest (fun _ _ => true)
      ⟨"POST", "/interactions", [("X-Signature-Ed25519", "abcd")]⟩ "body" = false := by
  constructor
  · exact (c6_verify_missing_or_malformed_headers (fun _ _ => true)
      ⟨"POST", "/interactions", []⟩ "body").1 rfl
  · exact (c6_verify_missing_or_malformed_headers (fun _ _ => true)
      ⟨"POST", "/interactions", [("X-Signature-Ed25519", "abcd")]⟩ "body").2.2 "abcd"
      (by decide) (by decide)

theorem phaseTrace_length (phase n : Nat) : (phaseTrace phase n).length = n + (n - 5) := by
  induction n with
  | zero => rfl
  | succ n ih =>
    by_cases h : 5 ≤ n <;>
      simp [phaseTrace, h, ih, List.length_append] <;> omega

theorem phaseTrace_take5 (phase n : Nat) :
    (phaseTrace phase n).take 5 = (List.range (min n 5)).map (SyncEvent.call phase) := by
  induction n with
  | zero => rfl
  | succ n ih =>
    rw [phaseTrace]
    by_cases h : 5 ≤ n
    · have hlen : 5 ≤ (phaseTrace phase n).length := by rw [phaseTrace_length]; omega
      have hlen2 : 5 ≤ (phaseTrace phase n ++ [SyncEvent.pause ratelimit]).length := by
        rw [List.length_append, phaseTrace_length]
        simp only [List.length_cons, List.length_nil]
        omega
      have hmin : min (n + 1) 5 = min n 5 := by omega
      rw [if_pos h, List.take_append_of_le_length hlen2, List.take_append_of_le_length hlen,
        ih, hmin]
    · have hlen : (phaseTrace phase n).length = n := by rw [phaseTrace_length]; omega
      have hfull : (phaseTrace phase n).take 5 = phaseTrace phase n :=
        List.take_of_length_le (by rw [hlen]; omega)
      have htr : phaseTrace phase n = (List.range n).map (SyncEvent.call phase) := by
        have hm : min n 5 = n := by omega
        rw [← hfull, ih, hm]
      rw [if_neg h, List.append_nil, htr]
      have h1 : min (n + 1) 5 = n + 1 := by omega
      have h2 : ((List.range n).map (SyncEvent.call phase) ++ [SyncEvent.call phase n]).length ≤ 5 := by
        simp only [List.length_append, List.length_map, List.length_range, List.length_cons,
          List.length_nil]
        omega
      rw [h1, List.range_succ, List.map_append, List.take_of_length_le h2]
      simp

theorem phaseTrace_calls (phase n : Nat) :
    (phaseTrace phase n).filterMap
        (fun e => match e with | SyncEvent.call ph i => some (ph, i) | SyncEvent.pause _ => none) =
      (List.range n).map (fun i => (phase, i)) := by
  induction n with
  | zero => rfl
  | succ n ih =>
    rw [phaseTrace, List.filterMap_append, List.filterMap_append, ih, List.range_succ,
      List.map_append]
    by_cases h : 5 ≤ n <;> simp [h]

theorem phaseTrace_prefix (phase : Nat) {m n : Nat} (h : m ≤ n) :
    ∃ t, phaseTrace phase n = phaseTrace phase m ++ t := by
  induction n, h using Nat.le_induction with
  | base => exact ⟨[], (List.append_nil _).symm⟩
  | succ n hmn ih =>
    obtain ⟨t, ht⟩ := ih
    refine ⟨t ++ ((if 5 ≤ n then [SyncEvent.pause ratelimit] else []) ++ [SyncEvent.call phase n]), ?_⟩
    rw [phaseTrace, ht, List.append_assoc, List.append_assoc]

/-- C8: within each sync phase the remote-mutating calls are issued one
at a time in index order (the trace of a phase with `n` calls lists them
as events `0, …, n-1`); the first five events of a phase are calls — no
pause is inserted before them — and every call at index `i ≥ 5` is
immediately preceded by a pause of the fixed `ratelimit` window, so no
more than five calls are ever issued without an intervening pause; the
full run is the remove-phase trace, then the patch-phase trace, then the
register-phase trace, each paced independently. -/
theorem c8_sequential_paced_batches (plan : SyncPlan) :
    registerCommandsTrace plan =
      phaseTrace 0 plan.removes.length ++ phaseTrace 1 plan.patches.length ++
        phaseTrace 2 plan.creates.length ∧
    (∀ phase n, (phaseTrace phase n).take 5 =
      (List.range (min n 5)).map (SyncEvent.call phase)) ∧
    (∀ phase n, (phaseTrace phase n).filterMap
        (fun e => match e with | SyncEvent.call ph i => some (ph, i) | SyncEvent.pause _ => none) =
      (List.range n).map (fun i => (phase, i))) ∧
    (∀ phase n i, 5 ≤ i → i < n → ∃ l1 l2,
      phaseTrace phase n = l1 ++ [SyncEvent.pause ratelimit, SyncEvent.call phase i] ++ l2) := by
  refine ⟨rfl, phaseTrace_take5, phaseTrace_calls, ?_⟩
  intro phase n i h5 hin
  obtain ⟨t, ht⟩ := phaseTrace_prefix phase (show i + 1 ≤ n by omega)
  refine ⟨phaseTrace phase i, t, ?_⟩
  rw [ht, phaseTrace, if_pos h5]
  simp [List.append_assoc]

/-- Witness for C8 with a phase of 7 calls: the first five events are
the first five calls, and the sixth call is immediately preceded by a
pause. -/
theorem c8_sequential_paced_batches_witness :
    (phaseTrace 0 7).take 5 = (List.range (min 7 5)).map (SyncEvent.call 0) ∧
    (∃ l1 l2, phaseTrace 0 7 = l1 ++ [SyncEvent.pause ratelimit, SyncEvent.call 0 5] ++ l2) := by
  constructor
  · exact (c8_sequential_paced_batches ⟨[], [], []⟩).2.1 0 7
  · exact (c8_sequential_paced_batches ⟨[], [], []⟩).2.2.2 0 7 5 (by decide) (by decide)

/-- C5: whenever the option lists of the remote and the desired command
are structurally equal after normalization (defaulted booleans filled
in), the computed diff assigns no `options` key and the PATCH body
carries no `options` field. -/
theorem c5_normalized_options_not_flagged (oldCmd newCmd : CommandMeta)
    (h : consistentOptions oldCmd.options = consistentOptions newCmd.options) :
    (updatedCommandProps oldCmd newCmd).options = none ∧
    (serializePatch (updatedCommandProps oldCmd newCmd)).options = none := by
  constructor
  · simp [updatedCommandProps, h]
  · simp [serializePatch, updatedCommandProps, h]

/-- Witness for C5 at the claim's concrete instance: a remote option
`[{name: x, type: 3}]` with `required` absent versus the same desired
option with explicit `required: false` — no `options` diff. -/
theorem c5_normalized_options_not_flagged_witness :
    (updatedCommandProps
      { name := "foo", type := some 1, description := some "d",
        options := some [JOpt.mk 3 "x" "xd" none none none], contexts := none }
      { name := "foo", type := some 1, description := some "d",
        options := some [JOpt.mk 3 "x" "xd" (some false) none none], contexts := none }).options
      = none := by
  exact (c5_normalized_options_not_flagged _ _ (by
    simp [consistentOptions, consistentCommandOption, consistentOptionList])).1

/-! ## Lemmas about `validateCommands` and the sync plan -/

theorem validateCommands_invariant (commands : List CommandMeta) :
    (∀ x ∈ validateCommands commands, isCommand x = true) ∧
    (validateCommands commands).Pairwise (fun a b => getCommandName a ≠ getCommandName b) := by
  have main : ∀ (l acc : List CommandMeta),
      (∀ x ∈ acc, isCommand x = true) →
      acc.Pairwise (fun a b => getCommandName a ≠ getCommandName b) →
      (∀ x ∈ l.foldl
        (fun acc c =>
          if isCommand c && acc.all (fun a => getCommandName a != getCommandName c) then
            acc ++ [c]
          else acc) acc, isCommand x = true) ∧
      (l.foldl
        (fun acc c =>
          if isCommand c && acc.all (fun a => getCommandName a != getCommandName c) then
            acc ++ [c]
          else acc) acc).Pairwise (fun a b => getCommandName a ≠ getCommandName b) := by
    intro l
    induction l with
    | nil => intro acc h1 h2; exact ⟨h1, h2⟩
    | cons c cs ih =>
      intro acc h1 h2
      simp only [List.foldl_cons]
      by_cases hcond :
          (isCommand c && acc.all (fun a => getCommandName a != getCommandName c)) = true
      · rw [if_pos hcond]
        rw [Bool.and_eq_true] at hcond
        refine ih (acc ++ [c]) ?_ ?_
        · intro x hx
          rcases List.mem_append.mp hx with hx | hx
          · exact h1 x hx
          · rw [List.mem_singleton.mp hx]
            exact hcond.1
        · rw [List.pairwise_append]
          refine ⟨h2, List.pairwise_singleton _ _, ?_⟩
          intro a ha b hb
          rw [List.mem_singleton.mp hb]
          have := (List.all_eq_true.mp hcond.2) a ha
          simpa using this
      · rw [if_neg hcond]
        exact ih acc h1 h2
  simpa [validateCommands] using main commands [] (by simp) List.Pairwise.nil

theorem pairwise_key_unique {l : List CommandMeta}
    (hp : l.Pairwise (fun a b => getCommandName a ≠ getCommandName b)) :
    ∀ {a b : CommandMeta}, a ∈ l → b ∈ l → getCommandName a = getCommandName b → a = b := by
  induction hp with
  | nil => intro a b ha _ _; exact absurd ha (by simp)
  | cons hx _ ih =>
    intro a b ha hb hkey
    rcases List.mem_cons.mp ha with rfl | ha2
    · rcases List.mem_cons.mp hb with rfl | hb2
      · rfl
      · exact absurd hkey (hx b hb2)
    · rcases List.mem_cons.mp hb with rfl | hb2
      · exact absurd hkey.symm (hx a ha2)
      · exact ih ha2 hb2 hkey

theorem validateCommands_key_inj (commands : List CommandMeta) {a b : CommandMeta}
    (ha : a ∈ validateCommands commands) (hb : b ∈ validateCommands commands)
    (hn : a.name = b.name) (ht : a.typeD = b.typeD) : a = b := by
  have hkey : getCommandName a = getCommandName b := by
    simp [getCommandName, hn, ht]
  exact pairwise_key_unique (validateCommands_invariant commands).2 ha hb hkey

theorem registerCommandsCalls_removes (commands : List CommandMeta) (remote : List RemoteCmd) :
    (registerCommandsCalls commands remote).removes =
      remote.filter
        (fun d => !((validateCommands commands).any (fun c => c.name == d.name))) := rfl

theorem registerCommandsCalls_patches (commands : List CommandMeta) (remote : List RemoteCmd) :
    (registerCommandsCalls commands remote).patches =
      (validateCommands commands).filterMap (fun c =>
        (matchRemote remote c).bind (fun d =>
          if (updatedCommandProps d.meta c).keys.length = 0 then none
          else some (d, updatedCommandProps d.meta c))) := rfl

theorem registerCommandsCalls_creates (commands : List CommandMeta) (remote : List RemoteCmd) :
    (registerCommandsCalls commands remote).creates =
      ((validateCommands commands).filter
        (fun c => (matchRemote remote c).isNone)).map mkCreateBody := rfl

theorem matchRemote_some (remote : List RemoteCmd) (c : CommandMeta) (d : RemoteCmd)
    (h : matchRemote remote c = some d) :
    d ∈ remote ∧ d.name = c.name ∧ d.type = c.typeD := by
  refine ⟨List.mem_of_find?_eq_some h, ?_⟩
  have hp := List.find?_some h
  simpa [Bool.and_eq_true] using hp

/-- C1 (amended): given a remote registry whose only command named `n`
is a chat-input command `d` and a desired list whose only validated
command named `n` is a user-context-menu command `c`, sync issues **no**
delete for `d` (the remove phase matches by name alone, and a desired
`n` exists), no patch touching any command named `n`, and exactly one
create, with `c`'s POST body. -/
theorem c1_same_name_distinct_type (commands : List CommandMeta) (remote : List RemoteCmd)
    (n : String) (c : CommandMeta) (d : RemoteCmd)
    (hc : (validateCommands commands).filter (fun x => x.name == n) = [c])
    (hct : c.type = some 2)
    (hd : remote.filter (fun x => x.name == n) = [d])
    (hdt : d.type = chatInputType) :
    (registerCommandsCalls commands remote).removes.filter (fun x => x.name == n) = [] ∧
    (registerCommandsCalls commands remote).patches.filter (fun x => x.1.name == n) = [] ∧
    (registerCommandsCalls commands remote).creates.filter (fun x => x.name == n) =
      [mkCreateBody c] := by
  have hc0 : c ∈ (validateCommands commands).filter (fun x => x.name == n) := by
    rw [hc]
    exact List.mem_singleton.mpr rfl
  have hcmem : c ∈ validateCommands commands ∧ (c.name == n) = true :=
    List.mem_filter.mp hc0
  have hcn : c.name = n := by simpa using hcmem.2
  have htypeD : c.typeD = 2 := by simp [CommandMeta.typeD, hct]
  have hmatch : matchRemote remote c = none := by
    rw [matchRemote, List.find?_eq_none]
    intro x hx hpred
    have hxx : x.name = c.name ∧ x.type = c.typeD := by
      simpa [Bool.and_eq_true] using hpred
    have hxmem : x ∈ remote.filter (fun y => y.name == n) :=
      List.mem_filter.mpr ⟨hx, by simp [hxx.1, hcn]⟩
    rw [hd, List.mem_singleton] at hxmem
    subst hxmem
    rw [hdt] at hxx
    rw [htypeD] at hxx
    exact absurd hxx.2 (by decide)
  refine ⟨?_, ?_, ?_⟩
  · rw [registerCommandsCalls_removes, List.filter_eq_nil_iff]
    intro x hx
    have hx2 := List.mem_filter.mp hx
    intro hxn
    have hxn2 : x.name = n := by simpa using hxn
    have hany : (validateCommands commands).any (fun c0 => c0.name == x.name) = true := by
      rw [List.any_eq_true]
      exact ⟨c, hcmem.1, by simp [hcn, hxn2]⟩
    rw [hany] at hx2
    simpa using hx2.2
  · rw [registerCommandsCalls_patches, List.filter_eq_nil_iff]
    intro dp hdp
    obtain ⟨c0, hc0mem, hc0⟩ := List.mem_filterMap.mp hdp
    obtain ⟨d0, hd0, hif⟩ := Option.bind_eq_some.mp hc0
    have hdp1 : dp.1 = d0 := by
      by_cases hk : (updatedCommandProps d0.meta c0).keys.length = 0
      · rw [if_pos hk] at hif; exact absurd hif (by simp)
      · rw [if_neg hk] at hif
        have := Option.some.inj hif
        rw [← this]
    intro hname
    have hfacts := matchRemote_some remote c0 d0 hd0
    have hd0n : d0.name = n := by
      rw [← hdp1]
      simpa using hname
    have hc0n : c0.name = n := by rw [← hfacts.2.1, hd0n]
    have hc0mem2 : c0 ∈ (validateCommands commands).filter (fun x => x.name == n) :=
      List.mem_filter.mpr ⟨hc0mem, by simp [hc0n]⟩
    rw [hc, List.mem_singleton] at hc0mem2
    subst hc0mem2
    rw [hmatch] at hd0
    exact absurd hd0 (by simp)
  · rw [registerCommandsCalls_creates, List.filter_map]
    have hcomp : ((fun x : CreateBody => x.name == n) ∘ mkCreateBody) =
        (fun c0 : CommandMeta => c0.name == n) := rfl
    rw [hcomp, List.filter_filter]
    have hone : (validateCommands commands).filter
        (fun a => (a.name == n) && (matchRemote remote a).isNone) = [c] := by
      rw [List.filter_congr
          (fun a _ => Bool.and_comm (a.name == n) (matchRemote remote a).isNone),
        ← List.filter_filter, hc]
      simp [hmatch]
    rw [hone]
    rfl

/-- C1 (counterexample): with remote `[foo chat-input]` and desired
`[foo user-context-menu]`, sync issues zero deletes — not the one delete
the claim requires — one create, and no patch. -/
theorem c1_same_name_distinct_type_counterexample :
    (registerCommandsCalls
      [{ name := "foo", type := some 2, description := none, options := none, contexts := none }]
      [{ id := 10, name := "foo", type := 1, description := "d", options := none,
         integration_types := none, contexts := none }]).removes = [] ∧
    (registerCommandsCalls
      [{ name := "foo", type := some 2, description := none, options := none, contexts := none }]
      [{ id := 10, name := "foo", type := 1, description := "d", options := none,
         integration_types := none, contexts := none }]).patches = [] ∧
    ((registerCommandsCalls
      [{ name := "foo", type := some 2, description := none, options := none, contexts := none }]
      [{ id := 10, name := "foo", type := 1, description := "d", options := none,
         integration_types := none, contexts := none }]).creates.map
        (fun b => (b.name, b.type))) = [("foo", some 2)] := by
  refine ⟨by decide, by decide, by decide⟩

/-- Witness for C1 (amended) at the counterexample input. -/
theorem c1_same_name_distinct_type_witness :
    (registerCommandsCalls
      [{ name := "foo", type := some 2, description := none, options := none, contexts := none }]
      [{ id := 10, name := "foo", type := 1, description := "d", options := none,
         integration_types := none, contexts := none }]).removes.filter
        (fun x => x.name == "foo") = [] ∧
    (registerCommandsCalls
      [{ name := "foo", type := some 2, description := none, options := none, contexts := none }]
      [{ id := 10, name := "foo", type := 1, description := "d", options := none,
         integration_types := none, contexts := none }]).creates.filter
        (fun x => x.name == "foo") =
      [mkCreateBody
        { name := "foo", type := some 2, description := none, options := none, contexts := none }] := by
  have h := c1_same_name_distinct_type
    [{ name := "foo", type := some 2, description := none, options := none, contexts := none }]
    [{ id := 10, name := "foo", type := 1, description := "d", options := none,
       integration_types := none, contexts := none }]
    "foo"
    { name := "foo", type := some 2, description := none, options := none, contexts := none }
    { id := 10, name := "foo", type := 1, description := "d", options := none,
      integration_types := none, contexts := none }
    (by decide) rfl (by decide) rfl
  exact ⟨h.1, h.2.2⟩

/-! ## PATCH body contents (C4) -/

/-- The keys a patch object assigns to a *defined* value — these are
exactly the keys that survive `JSON.stringify`. -/
def CmdPatch.keysDefined (p : CmdPatch) : List String :=
  (if p.name.isSome then ["name"] else []) ++
  (if (p.type.bind id).isSome then ["type"] else []) ++
  (if (p.description.bind id).isSome then ["description"] else []) ++
  (if (p.options.bind id).isSome then ["options"] else []) ++
  (if (p.integration_types.bind id).isSome then ["integration_types"] else []) ++
  (if (p.contexts.bind id).isSome then ["contexts"] else [])

theorem isSome_of_bind_isSome {α : Type} (o : Option (Option α))
    (h : (o.bind id).isSome = true) : o.isSome = true := by
  cases o <;> simp_all

theorem ite_singleton_mono {c d : Prop} [Decidable c] [Decidable d] (h : c → d) (s x : String)
    (hs : s ∈ (if c then [x] else [])) : s ∈ (if d then [x] else []) := by
  by_cases hc : c
  · rw [if_pos (h hc)]
    simpa [hc] using hs
  · simp [hc] at hs

theorem cmdPatch_keysDefined_subset (p : CmdPatch) : p.keysDefined ⊆ p.keys := by
  intro s hs
  simp only [CmdPatch.keysDefined, List.mem_append] at hs
  simp only [CmdPatch.keys, List.mem_append]
  rcases hs with ((((h | h) | h) | h) | h) | h
  · exact Or.inl (Or.inl (Or.inl (Or.inl (Or.inl h))))
  · exact Or.inl (Or.inl (Or.inl (Or.inl (Or.inr
      (ite_singleton_mono (isSome_of_bind_isSome p.type) _ _ h)))))
  · exact Or.inl (Or.inl (Or.inl (Or.inr
      (ite_singleton_mono (isSome_of_bind_isSome p.description) _ _ h))))
  · exact Or.inl (Or.inl (Or.inr
      (ite_singleton_mono (isSome_of_bind_isSome p.options) _ _ h)))
  · exact Or.inl (Or.inr
      (ite_singleton_mono (isSome_of_bind_isSome p.integration_types) _ _ h))
  · exact Or.inr (ite_singleton_mono (isSome_of_bind_isSome p.contexts) _ _ h)

/-- C4 (amended): for every patch issued during sync, the serialized
PATCH body contains exactly those flagged fields whose assigned value is
defined — a subset of the flagged fields; a field whose diff flag is
unset never appears in the body. -/
theorem c4_patch_body_only_flagged_fields (commands : List CommandMeta)
    (remote : List RemoteCmd) (dp : RemoteCmd × CmdPatch)
    (_hdp : dp ∈ (registerCommandsCalls commands remote).patches) :
    (serializePatch dp.2).keys = dp.2.keysDefined ∧ dp.2.keysDefined ⊆ dp.2.keys :=
  ⟨rfl, cmdPatch_keysDefined_subset dp.2⟩

/-- C4 (counterexample): a sync run whose single patch flags
`description` (the desired context-menu command has no description)
serializes to a PATCH body with **no** fields at all — the body does not
contain every flagged field, refuting the claimed exactness. -/
theorem c4_patch_body_only_flagged_fields_counterexample :
    ((registerCommandsCalls
      [{ name := "foo", type := some 2, description := none, options := none, contexts := none }]
      [{ id := 10, name := "foo", type := 2, description := "", options := none,
         integration_types := none, contexts := none }]).patches.map
        (fun dp => (dp.2.keys, (serializePatch dp.2).keys))) = [(["description"], [])] := by
  decide

/-- Witness for C4 (amended) at the patch of the counterexample run. -/
theorem c4_patch_body_only_flagged_fields_witness :
    (serializePatch
        (⟨{ id := 10, name := "foo", type := 2, description := "", options := none,
            integration_types := none, contexts := none },
          ⟨none, none, some none, none, none, none⟩⟩ : RemoteCmd × CmdPatch).2).keys =
      (⟨none, none, some none, none, none, none⟩ : CmdPatch).keysDefined ∧
    (⟨none, none, some none, none, none, none⟩ : CmdPatch).keysDefined ⊆
      (⟨none, none, some none, none, none, none⟩ : CmdPatch).keys :=
  c4_patch_body_only_flagged_fields
    [{ name := "foo", type := some 2, description := none, options := none, contexts := none }]
    [{ id := 10, name := "foo", type := 2, description := "", options := none,
       integration_types := none, contexts := none }]
    ⟨{ id := 10, name := "foo", type := 2, description := "", options := none,
       integration_types := none, contexts := none },
      ⟨none, none, some none, none, none, none⟩⟩
    (by decide)

/-! ## Second-run behaviour of the sync engine (C3) -/

/-- C3 (counterexample): remote holds a user-context-menu `foo` whose
description is the empty string; the desired list holds the matching
context-menu `foo`, which (being a context menu) has no description.
The first run issues one PATCH whose body is empty (the flagged
`description` is `undefined` and is dropped by `JSON.stringify`), so the
remote registry is unchanged and the second run issues the same call
again: one remote-mutating call, not zero. -/
theorem c3_idempotency_counterexample :
    (registerCommandsCalls
      [{ name := "foo", type := some 2, description := none, options := none, contexts := none }]
      [{ id := 10, name := "foo", type := 2, description := "", options := none,
         integration_types := none, contexts := none }]).totalCalls = 1 ∧
    (registerCommandsCalls
      [{ name := "foo", type := some 2, description := none, options := none, contexts := none }]
      (registerCommandsRemote
        [{ name := "foo", type := some 2, description := none, options := none, contexts := none }]
        [{ id := 10, name := "foo", type := 2, description := "", options := none,
           integration_types := none, contexts := none }])).totalCalls = 1 := by
  refine ⟨by decide, by decide⟩

/-- Applying the patch phase to one stored command, PATCH by PATCH in
issue order. -/
def applyPatches (ps : List (RemoteCmd × CmdPatch)) (d : RemoteCmd) : RemoteCmd :=
  ps.foldl (fun x dp => patchStep dp x) d

theorem foldl_map_comm {A P : Type} (g : P → A → A) (ps : List P) (rs : List A) :
    ps.foldl (fun acc dp => acc.map (g dp)) rs =
      rs.map (fun a => ps.foldl (fun x dp => g dp x) a) := by
  induction ps generalizing rs with
  | nil => simp
  | cons p ps ih =>
    rw [List.foldl_cons, ih, List.map_map]
    rfl

theorem registerCommandsRemote_eq (commands : List CommandMeta) (remote : List RemoteCmd) :
    registerCommandsRemote commands remote =
      (remote.filter
        (fun d => (validateCommands commands).any (fun c => c.name == d.name))).map
          (applyPatches (registerCommandsCalls commands remote).patches) ++
      ((registerCommandsCalls commands remote).creates.enum.map
        (fun ic => createdRemote (maxId remote + 1 + ic.1) ic.2)) := by
  unfold registerCommandsRemote
  dsimp only []
  rw [foldl_map_comm patchStep]
  rfl

theorem applyPatchBody_id (d : RemoteCmd) (b : PatchBody) : (applyPatchBody d b).id = d.id := rfl

theorem patchStep_preserves (dp : RemoteCmd × CmdPatch)
    (hnt : dp.2.name = none ∧ dp.2.type = none) (d : RemoteCmd) :
    (patchStep dp d).name = d.name ∧ (patchStep dp d).type = d.type ∧
      (patchStep dp d).id = d.id := by
  unfold patchStep
  by_cases h : d.id = dp.1.id
  · rw [if_pos h]
    unfold applyPatchBody serializePatch
    refine ⟨?_, ?_, rfl⟩
    · simp [hnt.1]
    · simp [hnt.2]
  · rw [if_neg h]
    exact ⟨rfl, rfl, rfl⟩

theorem applyPatches_preserves (ps : List (RemoteCmd × CmdPatch))
    (hps : ∀ dp ∈ ps, dp.2.name = none ∧ dp.2.type = none) (d : RemoteCmd) :
    (applyPatches ps d).name = d.name ∧ (applyPatches ps d).type = d.type ∧
      (applyPatches ps d).id = d.id := by
  induction ps generalizing d with
  | nil => exact ⟨rfl, rfl, rfl⟩
  | cons p ps ih =>
    have hstep := patchStep_preserves p (hps p (List.mem_cons_self p ps)) d
    have htail := ih (fun dp hdp => hps dp (List.mem_cons_of_mem p hdp)) (patchStep p d)
    have he : applyPatches (p :: ps) d = applyPatches ps (patchStep p d) := rfl
    rw [he]
    exact ⟨htail.1.trans hstep.1, htail.2.1.trans hstep.2.1, htail.2.2.trans hstep.2.2⟩

theorem applyPatches_skip (ps : List (RemoteCmd × CmdPatch)) (d : RemoteCmd)
    (h : ∀ dp ∈ ps, dp.1.id ≠ d.id) : applyPatches ps d = d := by
  induction ps with
  | nil => rfl
  | cons p ps ih =>
    have he : applyPatches (p :: ps) d = applyPatches ps (patchStep p d) := rfl
    have hp : patchStep p d = d := by
      unfold patchStep
      rw [if_neg (fun hh => h p (List.mem_cons_self p ps) hh.symm)]
    rw [he, hp]
    exact ih (fun dp hdp => h dp (List.mem_cons_of_mem p hdp))

theorem applyPatches_unique (ps1 ps2 : List (RemoteCmd × CmdPatch)) (dp : RemoteCmd × CmdPatch)
    (d : RemoteCmd) (h1 : ∀ x ∈ ps1, x.1.id ≠ d.id) (hdp : dp.1.id = d.id)
    (h2 : ∀ x ∈ ps2, x.1.id ≠ d.id) :
    applyPatches (ps1 ++ dp :: ps2) d = applyPatchBody d (serializePatch dp.2) := by
  have e1 : applyPatches (ps1 ++ dp :: ps2) d = applyPatches (dp :: ps2) (applyPatches ps1 d) := by
    unfold applyPatches
    rw [List.foldl_append]
  rw [e1, applyPatches_skip ps1 d h1]
  have e2 : applyPatches (dp :: ps2) d = applyPatches ps2 (patchStep dp d) := rfl
  have e3 : patchStep dp d = applyPatchBody d (serializePatch dp.2) := by
    unfold patchStep
    rw [if_pos hdp.symm]
  rw [e2, e3]
  exact applyPatches_skip ps2 _ (fun x hx => by
    rw [applyPatchBody_id]
    exact h2 x hx)

theorem mem_patches (commands : List CommandMeta) (remote : List RemoteCmd)
    {dp : RemoteCmd × CmdPatch} (h : dp ∈ (registerCommandsCalls commands remote).patches) :
    ∃ c0 ∈ validateCommands commands, matchRemote remote c0 = some dp.1 ∧
      dp.2 = updatedCommandProps dp.1.meta c0 ∧
      ¬ (updatedCommandProps dp.1.meta c0).keys.length = 0 := by
  rw [registerCommandsCalls_patches] at h
  obtain ⟨c0, hmem, hf⟩ := List.mem_filterMap.mp h
  obtain ⟨d0, hd0, hif⟩ := Option.bind_eq_some.mp hf
  by_cases hk : (updatedCommandProps d0.meta c0).keys.length = 0
  · rw [if_pos hk] at hif
    exact absurd hif (by simp)
  · rw [if_neg hk] at hif
    have hdp := Option.some.inj hif
    refine ⟨c0, hmem, ?_, ?_, ?_⟩
    · rw [← hdp]
      exact hd0
    · rw [← hdp]
    · rw [← hdp]
      exact hk

theorem updatedCommandProps_matched_nt (remote : List RemoteCmd) (c : CommandMeta)
    (d : RemoteCmd) (h : matchRemote remote c = some d) :
    (updatedCommandProps d.meta c).name = none ∧ (updatedCommandProps d.meta c).type = none := by
  obtain ⟨-, hn, ht⟩ := matchRemote_some remote c d h
  constructor
  · simp [updatedCommandProps, RemoteCmd.meta, hn]
  · simp [updatedCommandProps, RemoteCmd.meta, ht]

theorem patches_nt (commands : List CommandMeta) (remote : List RemoteCmd) :
    ∀ dp ∈ (registerCommandsCalls commands remote).patches,
      dp.2.name = none ∧ dp.2.type = none := by
  intro dp h
  obtain ⟨c0, _, hm, he, _⟩ := mem_patches commands remote h
  rw [he]
  exact updatedCommandProps_matched_nt remote c0 dp.1 hm

theorem cmdPatch_keys_nil_iff (p : CmdPatch) :
    p.keys.length = 0 ↔
      p.name = none ∧ p.type = none ∧ p.description = none ∧ p.options = none ∧
        p.integration_types = none ∧ p.contexts = none := by
  rcases p with ⟨n, t, d, o, it, cx⟩
  cases n <;> cases t <;> cases d <;> cases o <;> cases it <;> cases cx <;>
    simp [CmdPatch.keys]

/-- A stored remote command carries everything the desired command
defines: same name and (defaulted) type, and wherever the desired
command defines a description, options, or context arrays, the stored
command matches it (up to the normalization the diff itself applies).
A remote command in this relation to its desired command produces a
diff whose every flagged field has an undefined value. -/
def AgreesWith (c : CommandMeta) (d : RemoteCmd) : Prop :=
  d.name = c.name ∧ d.type = c.typeD ∧
  (∀ s, c.description = some s → d.description = s) ∧
  (∀ l, c.options = some l → consistentOptions d.options = consistentOptions (some l)) ∧
  (∀ l, c.ctxInstallation = some l →
    consistentContexts d.integration_types = consistentContexts (some l)) ∧
  (∀ l, c.ctxInteraction = some l → consistentContexts d.contexts = consistentContexts (some l))

theorem serialize_empty_of_agrees (c : CommandMeta) (d : RemoteCmd) (h : AgreesWith c d) :
    serializePatch (updatedCommandProps d.meta c) =
      ({ name := none, type := none, description := none, options := none,
         integration_types := none, contexts := none } : PatchBody) := by
  obtain ⟨hn, ht, hd, ho, hi, hx⟩ := h
  have e1 : (updatedCommandProps d.meta c).name = none := by
    simp [updatedCommandProps, RemoteCmd.meta, hn]
  have e2 : (updatedCommandProps d.meta c).type = none := by
    simp [updatedCommandProps, RemoteCmd.meta, ht]
  have e3 : (updatedCommandProps d.meta c).description.bind id = none := by
    rcases hdes : c.description with _ | s
    · by_cases hc : d.meta.description ≠ c.description <;>
        simp [updatedCommandProps, hc, hdes]
    · have hds : d.description = s := hd s hdes
      simp [updatedCommandProps, RemoteCmd.meta, hdes, hds]
  have e4 : (updatedCommandProps d.meta c).options.bind id = none := by
    rcases hopt : c.options with _ | l
    · by_cases hc : consistentOptions d.meta.options ≠ consistentOptions c.options <;>
        simp [updatedCommandProps, hc, hopt]
    · have heq : consistentOptions d.options = consistentOptions (some l) := ho l hopt
      simp [updatedCommandProps, RemoteCmd.meta, hopt, heq]
  have e5 : (updatedCommandProps d.meta c).integration_types.bind id = none := by
    rcases hins : c.ctxInstallation with _ | l
    · by_cases hc :
          consistentContexts d.meta.ctxInstallation ≠ consistentContexts c.ctxInstallation <;>
        simp [updatedCommandProps, hc, hins]
    · have heq : consistentContexts d.integration_types = consistentContexts (some l) :=
        hi l hins
      have hmeta : d.meta.ctxInstallation = d.integration_types := rfl
      simp [updatedCommandProps, hmeta, hins, heq]
  have e6 : (updatedCommandProps d.meta c).contexts.bind id = none := by
    rcases hint : c.ctxInteraction with _ | l
    · by_cases hc :
          consistentContexts d.meta.ctxInteraction ≠ consistentContexts c.ctxInteraction <;>
        simp [updatedCommandProps, hc, hint]
    · have heq : consistentContexts d.contexts = consistentContexts (some l) := hx l hint
      have hmeta : d.meta.ctxInteraction = d.contexts := rfl
      simp [updatedCommandProps, hmeta, hint, heq]
  have e2b : (updatedCommandProps d.meta c).type.bind id = none := by
    rw [e2]
    rfl
  simp only [serializePatch, e1, e2b, e3, e4, e5, e6]

theorem agrees_applyPatchBody (remote : List RemoteCmd) (c : CommandMeta) (d : RemoteCmd)
    (hm : matchRemote remote c = some d) :
    AgreesWith c (applyPatchBody d (serializePatch (updatedCommandProps d.meta c))) := by
  obtain ⟨-, hn, ht⟩ := matchRemote_some remote c d hm
  have hnt := updatedCommandProps_matched_nt remote c d hm
  refine ⟨?_, ?_, ?_, ?_, ?_, ?_⟩
  · simp [applyPatchBody, serializePatch, hnt.1, hn]
  · simp [applyPatchBody, serializePatch, hnt.2, ht]
  · intro s hs
    by_cases hc : d.meta.description ≠ c.description
    · have hv : (updatedCommandProps d.meta c).description = some c.description := by
        simp [updatedCommandProps, hc]
      simp [applyPatchBody, serializePatch, hv, hs]
    · have hv : (updatedCommandProps d.meta c).description = none := by
        simp [updatedCommandProps, hc]
      have heq : some d.description = some s := by
        have h0 : d.meta.description = c.description := not_ne_iff.mp hc
        rw [← hs, ← h0]
        rfl
      simp [applyPatchBody, serializePatch, hv]
      exact Option.some.inj heq
  · intro l hl
    by_cases hc : consistentOptions d.meta.options ≠ consistentOptions c.options
    · have hv : (updatedCommandProps d.meta c).options = some c.options := by
        simp [updatedCommandProps, hc]
      simp [applyPatchBody, serializePatch, hv, hl]
    · have hv : (updatedCommandProps d.meta c).options = none := by
        simp [updatedCommandProps, hc]
      have heq : consistentOptions d.options = consistentOptions (some l) := by
        have h0 : consistentOptions d.meta.options = consistentOptions c.options :=
          not_ne_iff.mp hc
        rw [← hl, ← h0]
        rfl
      simp [applyPatchBody, serializePatch, hv, heq]
  · intro l hl
    by_cases hc :
        consistentContexts d.meta.ctxInstallation ≠ consistentContexts c.ctxInstallation
    · have hv : (updatedCommandProps d.meta c).integration_types = some c.ctxInstallation := by
        simp [updatedCommandProps, hc]
      simp [applyPatchBody, serializePatch, hv, hl]
    · have hv : (updatedCommandProps d.meta c).integration_types = none := by
        simp [updatedCommandProps, hc]
      have heq : consistentContexts d.integration_types = consistentContexts (some l) := by
        have h0 : consistentContexts d.meta.ctxInstallation = consistentContexts c.ctxInstallation :=
          not_ne_iff.mp hc
        rw [← hl, ← h0]
        rfl
      simp [applyPatchBody, serializePatch, hv, heq]
  · intro l hl
    by_cases hc : consistentContexts d.meta.ctxInteraction ≠ consistentContexts c.ctxInteraction
    · have hv : (updatedCommandProps d.meta c).contexts = some c.ctxInteraction := by
        simp [updatedCommandProps, hc]
      simp [applyPatchBody, serializePatch, hv, hl]
    · have hv : (updatedCommandProps d.meta c).contexts = none := by
        simp [updatedCommandProps, hc]
      have heq : consistentContexts d.contexts = consistentContexts (some l) := by
        have h0 : consistentContexts d.meta.ctxInteraction = consistentContexts c.ctxInteraction :=
          not_ne_iff.mp hc
        rw [← hl, ← h0]
        rfl
      simp [applyPatchBody, serializePatch, hv, heq]

theorem find?_filter_comm {α : Type} (l : List α) (p q : α → Bool) :
    (l.filter q).find? p = l.find? (fun a => q a && p a) := by
  induction l with
  | nil => rfl
  | cons a l ih =>
    by_cases hq : q a = true
    · rw [List.filter_cons, if_pos hq]
      by_cases hp : p a = true
      · rw [List.find?_cons_of_pos _ hp, List.find?_cons_of_pos _ (by simp [hq, hp])]
      · rw [List.find?_cons_of_neg _ hp, ih, List.find?_cons_of_neg _ (by simp [hq, hp])]
    · rw [List.filter_cons, if_neg hq, ih, List.find?_cons_of_neg _ (by simp [hq])]

theorem mem_enumFrom_snd {α : Type} {p : Nat × α} :
    ∀ {i : Nat} {l : List α}, p ∈ l.enumFrom i → p.2 ∈ l := by
  intro i l
  induction l generalizing i with
  | nil => intro h; exact absurd h (by simp)
  | cons a l ih =>
    intro h
    rw [List.enumFrom_cons] at h
    rcases List.mem_cons.mp h with rfl | h2
    · exact List.mem_cons_self a l
    · exact List.mem_cons_of_mem a (ih h2)

theorem mem_enumFrom_of_mem {α : Type} {a : α} :
    ∀ {i : Nat} {l : List α}, a ∈ l → ∃ j, (j, a) ∈ l.enumFrom i := by
  intro i l
  induction l generalizing i with
  | nil => intro h; exact absurd h (by simp)
  | cons b l ih =>
    intro h
    rcases List.mem_cons.mp h with rfl | h2
    · exact ⟨i, by rw [List.enumFrom_cons]; exact List.mem_cons_self _ _⟩
    · obtain ⟨j, hj⟩ := ih (i := i + 1) h2
      exact ⟨j, by rw [List.enumFrom_cons]; exact List.mem_cons_of_mem _ hj⟩

theorem validateCommands_nodup (commands : List CommandMeta) :
    (validateCommands commands).Nodup :=
  ((validateCommands_invariant commands).2).imp (fun h heq => h (by rw [heq]))

theorem patch_source_eq (commands : List CommandMeta) (remote : List RemoteCmd)
    (hids : (remote.map RemoteCmd.id).Nodup) {c : CommandMeta} {d : RemoteCmd}
    (hc : c ∈ validateCommands commands) (hm : matchRemote remote c = some d)
    {c0 : CommandMeta} {d0 : RemoteCmd} (hc0 : c0 ∈ validateCommands commands)
    (hm0 : matchRemote remote c0 = some d0) (heq : d0.id = d.id) : c0 = c ∧ d0 = d := by
  have h1 := matchRemote_some remote c d hm
  have h2 := matchRemote_some remote c0 d0 hm0
  have hdd : d0 = d := List.inj_on_of_nodup_map hids h2.1 h1.1 heq
  subst hdd
  have hcc : c0 = c :=
    validateCommands_key_inj commands hc0 hc (h2.2.1.symm.trans h1.2.1)
      (h2.2.2.symm.trans h1.2.2)
  exact ⟨hcc, rfl⟩

theorem agrees_createdRemote (c : CommandMeta) (k : Nat) :
    AgreesWith c (createdRemote k (mkCreateBody c)) := by
  refine ⟨rfl, rfl, ?_, ?_, ?_, ?_⟩
  · intro s hs
    simp [createdRemote, mkCreateBody, hs]
  · intro l hl
    simp [createdRemote, mkCreateBody, hl]
  · intro l hl
    simp [createdRemote, mkCreateBody, hl]
  · intro l hl
    simp [createdRemote, mkCreateBody, hl]

theorem agrees_of_empty_diff (remote : List RemoteCmd) (c : CommandMeta) (d : RemoteCmd)
    (hm : matchRemote remote c = some d)
    (hk : (updatedCommandProps d.meta c).keys.length = 0) : AgreesWith c d := by
  have hfacts := matchRemote_some remote c d hm
  have hall := (cmdPatch_keys_nil_iff _).mp hk
  refine ⟨hfacts.2.1, hfacts.2.2, ?_, ?_, ?_, ?_⟩
  · intro s hs
    have hdesc := hall.2.2.1
    by_cases hcnd : d.meta.description ≠ c.description
    · have hv : (updatedCommandProps d.meta c).description = some c.description := by
        simp [updatedCommandProps, hcnd]
      rw [hv] at hdesc
      exact absurd hdesc (by simp)
    · have h0 : d.meta.description = c.description := not_ne_iff.mp hcnd
      have h1 : some d.description = some s := by
        rw [← hs, ← h0]
        rfl
      exact Option.some.inj h1
  · intro l hl
    have hopt := hall.2.2.2.1
    by_cases hcnd : consistentOptions d.meta.options ≠ consistentOptions c.options
    · have hv : (updatedCommandProps d.meta c).options = some c.options := by
        simp [updatedCommandProps, hcnd]
      rw [hv] at hopt
      exact absurd hopt (by simp)
    · have h0 : consistentOptions d.meta.options = consistentOptions c.options :=
        not_ne_iff.mp hcnd
      rw [← hl, ← h0]
      rfl
  · intro l hl
    have hins := hall.2.2.2.2.1
    by_cases hcnd :
        consistentContexts d.meta.ctxInstallation ≠ consistentContexts c.ctxInstallation
    · have hv : (updatedCommandProps d.meta c).integration_types = some c.ctxInstallation := by
        simp [updatedCommandProps, hcnd]
      rw [hv] at hins
      exact absurd hins (by simp)
    · have h0 : consistentContexts d.meta.ctxInstallation = consistentContexts c.ctxInstallation :=
        not_ne_iff.mp hcnd
      rw [← hl, ← h0]
      rfl
  · intro l hl
    have hint := hall.2.2.2.2.2
    by_cases hcnd : consistentContexts d.meta.ctxInteraction ≠ consistentContexts c.ctxInteraction
    · have hv : (updatedCommandProps d.meta c).contexts = some c.ctxInteraction := by
        simp [updatedCommandProps, hcnd]
      rw [hv] at hint
      exact absurd hint (by simp)
    · have h0 : consistentContexts d.meta.ctxInteraction = consistentContexts c.ctxInteraction :=
        not_ne_iff.mp hcnd
      rw [← hl, ← h0]
      rfl

theorem filterMap_patch_ids (commands : List CommandMeta) (remote : List RemoteCmd)
    (hids : (remote.map RemoteCmd.id).Nodup) {c : CommandMeta} {d : RemoteCmd}
    (hc : c ∈ validateCommands commands) (hm : matchRemote remote c = some d)
    (ll : List CommandMeta) (hsub : ∀ y ∈ ll, y ∈ validateCommands commands) (hnotin : c ∉ ll) :
    ∀ x ∈ ll.filterMap (fun c0 => (matchRemote remote c0).bind (fun d0 =>
        if (updatedCommandProps d0.meta c0).keys.length = 0 then none
        else some (d0, updatedCommandProps d0.meta c0))),
      x.1.id ≠ d.id := by
  intro x hx heq
  obtain ⟨c0, hc0, hf0⟩ := List.mem_filterMap.mp hx
  obtain ⟨d0, hd0, hif⟩ := Option.bind_eq_some.mp hf0
  have hx1 : x.1 = d0 := by
    by_cases hk : (updatedCommandProps d0.meta c0).keys.length = 0
    · rw [if_pos hk] at hif
      exact absurd hif (by simp)
    · rw [if_neg hk] at hif
      rw [← Option.some.inj hif]
  have hsrc := patch_source_eq commands remote hids hc hm (hsub c0 hc0) hd0
    (by rw [← hx1]; exact heq)
  exact hnotin (hsrc.1 ▸ hc0)

theorem run2_match (commands : List CommandMeta) (remote : List RemoteCmd)
    (hids : (remote.map RemoteCmd.id).Nodup) {c : CommandMeta}
    (hc : c ∈ validateCommands commands) :
    ∃ d2, matchRemote (registerCommandsRemote commands remote) c = some d2 ∧ AgreesWith c d2 := by
  have hpsnt := patches_nt commands remote
  have hPhi := applyPatches_preserves (registerCommandsCalls commands remote).patches hpsnt
  have hcompeq : ((fun a : RemoteCmd => a.name == c.name && a.type == c.typeD) ∘
      applyPatches (registerCommandsCalls commands remote).patches) =
      (fun a : RemoteCmd => a.name == c.name && a.type == c.typeD) := by
    funext x
    have h := hPhi x
    simp [Function.comp, h.1, h.2.1]
  have hkeeppred : (fun a : RemoteCmd =>
      ((validateCommands commands).any (fun c0 => c0.name == a.name)) &&
        (a.name == c.name && a.type == c.typeD)) =
      (fun a : RemoteCmd => a.name == c.name && a.type == c.typeD) := by
    funext a
    by_cases hp : (a.name == c.name && a.type == c.typeD) = true
    · have hname : a.name = c.name := by
        simp only [Bool.and_eq_true, beq_iff_eq] at hp
        exact hp.1
      have hany : (validateCommands commands).any (fun c0 => c0.name == a.name) = true := by
        rw [List.any_eq_true]
        exact ⟨c, hc, by simp [hname]⟩
      rw [hp, hany]
      rfl
    · have hp2 : (a.name == c.name && a.type == c.typeD) = false := by
        simpa using hp
      rw [hp2, Bool.and_false]
  have hsplit : matchRemote (registerCommandsRemote commands remote) c =
      ((remote.find? (fun a => a.name == c.name && a.type == c.typeD)).map
        (applyPatches (registerCommandsCalls commands remote).patches)).or
      (((registerCommandsCalls commands remote).creates.enum.map
        (fun ic => createdRemote (maxId remote + 1 + ic.1) ic.2)).find?
          (fun a => a.name == c.name && a.type == c.typeD)) := by
    rw [matchRemote, registerCommandsRemote_eq, List.find?_append, List.find?_map, hcompeq,
      find?_filter_comm, hkeeppred]
  rw [hsplit]
  rcases hm : remote.find? (fun a => a.name == c.name && a.type == c.typeD) with _ | d
  · -- no run-1 match: the created command for `c` is found
    have hmnone : matchRemote remote c = none := hm
    have hcreg : c ∈ (validateCommands commands).filter
        (fun x => (matchRemote remote x).isNone) := by
      refine List.mem_filter.mpr ⟨hc, ?_⟩
      rw [hmnone]
      rfl
    have hbody : mkCreateBody c ∈ (registerCommandsCalls commands remote).creates := by
      rw [registerCommandsCalls_creates]
      exact List.mem_map_of_mem _ hcreg
    obtain ⟨j, hj⟩ := mem_enumFrom_of_mem (i := 0) hbody
    have hgmem : createdRemote (maxId remote + 1 + j) (mkCreateBody c) ∈
        (registerCommandsCalls commands remote).creates.enum.map
          (fun ic => createdRemote (maxId remote + 1 + ic.1) ic.2) :=
      List.mem_map_of_mem (fun ic : Nat × CreateBody => createdRemote (maxId remote + 1 + ic.1) ic.2) hj
    have hpredg : ((createdRemote (maxId remote + 1 + j) (mkCreateBody c)).name == c.name &&
        (createdRemote (maxId remote + 1 + j) (mkCreateBody c)).type == c.typeD) = true := by
      simp [createdRemote, mkCreateBody, CommandMeta.typeD]
    have hsome : (((registerCommandsCalls commands remote).creates.enum.map
        (fun ic => createdRemote (maxId remote + 1 + ic.1) ic.2)).find?
          (fun a => a.name == c.name && a.type == c.typeD)).isSome := by
      rw [List.find?_isSome]
      exact ⟨_, hgmem, hpredg⟩
    obtain ⟨d2, hd2⟩ := Option.isSome_iff_exists.mp hsome
    have hd2mem := List.mem_of_find?_eq_some hd2
    have hd2pred := List.find?_some hd2
    obtain ⟨ic, hicmem, hic⟩ := List.mem_map.mp hd2mem
    have hic2 : ic.2 ∈ (registerCommandsCalls commands remote).creates :=
      mem_enumFrom_snd hicmem
    rw [registerCommandsCalls_creates] at hic2
    obtain ⟨c0, hc0mem, hc0b⟩ := List.mem_map.mp hic2
    have hc0cm : c0 ∈ validateCommands commands := (List.mem_filter.mp hc0mem).1
    have hd2eq : d2 = createdRemote (maxId remote + 1 + ic.1) ic.2 := hic.symm
    simp only [Bool.and_eq_true, beq_iff_eq] at hd2pred
    have hn : c0.name = c.name := by
      have h1 : d2.name = c0.name := by
        rw [hd2eq, ← hc0b]
        rfl
      rw [← h1, hd2pred.1]
    have ht : c0.typeD = c.typeD := by
      have h1 : d2.type = c0.typeD := by
        rw [hd2eq, ← hc0b]
        rfl
      rw [← h1, hd2pred.2]
    have hc0c : c0 = c := validateCommands_key_inj commands hc0cm hc hn ht
    refine ⟨d2, ?_, ?_⟩
    · rw [hm, hd2]
      rfl
    · rw [hd2eq, ← hc0b, hc0c]
      exact agrees_createdRemote c ic.1
  · -- run-1 match `d`: its patched image is found
    have hmm : matchRemote remote c = some d := hm
    rw [hm]
    refine ⟨applyPatches (registerCommandsCalls commands remote).patches d, rfl, ?_⟩
    by_cases hk : (updatedCommandProps d.meta c).keys.length = 0
    · have hskip : ∀ dp ∈ (registerCommandsCalls commands remote).patches, dp.1.id ≠ d.id := by
        intro dp hdp heq
        obtain ⟨c0, hc0, hm0, he0, hk0⟩ := mem_patches commands remote hdp
        obtain ⟨hceq, hdeq⟩ := patch_source_eq commands remote hids hc hmm hc0 hm0 heq
        rw [hceq, hdeq] at hk0
        exact hk0 hk
      rw [applyPatches_skip _ d hskip]
      exact agrees_of_empty_diff remote c d hmm hk
    · obtain ⟨l1, l2, hdec⟩ := List.append_of_mem hc
      have hnd : (validateCommands commands).Nodup := validateCommands_nodup commands
      rw [hdec] at hnd
      have hcl1 : c ∉ l1 := by
        intro hmem
        exact (List.nodup_append.mp hnd).2.2 hmem (List.mem_cons_self c l2)
      have hcl2 : c ∉ l2 := by
        have h2 := (List.nodup_append.mp hnd).2.1
        exact (List.nodup_cons.mp h2).1
      have hsub1 : ∀ y ∈ l1, y ∈ validateCommands commands := by
        intro y hy
        rw [hdec]
        exact List.mem_append_left _ hy
      have hsub2 : ∀ y ∈ l2, y ∈ validateCommands commands := by
        intro y hy
        rw [hdec]
        exact List.mem_append_right _ (List.mem_cons_of_mem c hy)
      have hfc : (fun c0 => (matchRemote remote c0).bind (fun d0 =>
          if (updatedCommandProps d0.meta c0).keys.length = 0 then none
          else some (d0, updatedCommandProps d0.meta c0))) c =
          some (d, updatedCommandProps d.meta c) := by
        show (matchRemote remote c).bind _ = _
        rw [hmm]
        show (if (updatedCommandProps d.meta c).keys.length = 0 then none
          else some (d, updatedCommandProps d.meta c)) = some (d, updatedCommandProps d.meta c)
        rw [if_neg hk]
      have hcons := @List.filterMap_cons_some CommandMeta (RemoteCmd × CmdPatch)
        (fun c0 => (matchRemote remote c0).bind (fun d0 =>
          if (updatedCommandProps d0.meta c0).keys.length = 0 then none
          else some (d0, updatedCommandProps d0.meta c0))) c l2
        (d, updatedCommandProps d.meta c) hfc
      have hps : (registerCommandsCalls commands remote).patches =
          l1.filterMap (fun c0 => (matchRemote remote c0).bind (fun d0 =>
            if (updatedCommandProps d0.meta c0).keys.length = 0 then none
            else some (d0, updatedCommandProps d0.meta c0))) ++
          ((d, updatedCommandProps d.meta c) ::
            l2.filterMap (fun c0 => (matchRemote remote c0).bind (fun d0 =>
              if (updatedCommandProps d0.meta c0).keys.length = 0 then none
              else some (d0, updatedCommandProps d0.meta c0)))) := by
        rw [registerCommandsCalls_patches, hdec, List.filterMap_append, hcons]
      rw [hps, applyPatches_unique _ _ _ d
        (filterMap_patch_ids commands remote hids hc hmm l1 hsub1 hcl1) rfl
        (filterMap_patch_ids commands remote hids hc hmm l2 hsub2 hcl2)]
      exact agrees_applyPatchBody remote c d hmm

/-- C3 (amended): after one successful sync run against a remote registry
with pairwise-distinct command ids, immediately re-running sync with the
same unchanged desired command list issues zero deletes and zero creates;
it may still issue patches, but every flagged field of such a patch
carries an undefined desired value, so the serialized PATCH body is empty
and no remote field changes.  (When every first-run diff flags only
fields the desired commands define, the second run issues zero calls.) -/
theorem c3_second_run_no_effective_calls (commands : List CommandMeta)
    (remote : List RemoteCmd) (hids : (remote.map RemoteCmd.id).Nodup) :
    (registerCommandsCalls commands (registerCommandsRemote commands remote)).removes = [] ∧
    (registerCommandsCalls commands (registerCommandsRemote commands remote)).creates = [] ∧
    ∀ dp ∈ (registerCommandsCalls commands (registerCommandsRemote commands remote)).patches,
      serializePatch dp.2 =
        ({ name := none, type := none, description := none, options := none,
           integration_types := none, contexts := none } : PatchBody) := by
  refine ⟨?_, ?_, ?_⟩
  · rw [registerCommandsCalls_removes, List.filter_eq_nil_iff]
    intro x hx
    rw [registerCommandsRemote_eq] at hx
    rcases List.mem_append.mp hx with hx | hx
    · obtain ⟨y, hy, hyx⟩ := List.mem_map.mp hx
      have hy2 := List.mem_filter.mp hy
      have hname : x.name = y.name := by
        rw [← hyx]
        exact (applyPatches_preserves _ (patches_nt commands remote) y).1
      intro hcontra
      have hany : ((validateCommands commands).any fun c => c.name == x.name) = true := by
        rw [hname]
        exact hy2.2
      simp [hany] at hcontra
    · obtain ⟨ic, hicmem, hicx⟩ := List.mem_map.mp hx
      have hic2 : ic.2 ∈ (registerCommandsCalls commands remote).creates :=
        mem_enumFrom_snd hicmem
      rw [registerCommandsCalls_creates] at hic2
      obtain ⟨c0, hc0mem, hc0b⟩ := List.mem_map.mp hic2
      have hc0cm := (List.mem_filter.mp hc0mem).1
      have hname : x.name = c0.name := by
        rw [← hicx, ← hc0b]
        rfl
      intro hcontra
      have hany : ((validateCommands commands).any fun c => c.name == x.name) = true := by
        rw [List.any_eq_true]
        exact ⟨c0, hc0cm, by simp [hname]⟩
      simp [hany] at hcontra
  · rw [registerCommandsCalls_creates]
    have hfil : (validateCommands commands).filter
        (fun c => (matchRemote (registerCommandsRemote commands remote) c).isNone) = [] := by
      rw [List.filter_eq_nil_iff]
      intro c hcmem hcontra
      obtain ⟨d2, hd2, -⟩ := run2_match commands remote hids hcmem
      rw [hd2] at hcontra
      exact absurd hcontra (by simp)
    rw [hfil]
    rfl
  · intro dp hdp
    obtain ⟨c0, hc0, hm0, he0, -⟩ :=
      mem_patches commands (registerCommandsRemote commands remote) hdp
    obtain ⟨d2, hd2, hagree⟩ := run2_match commands remote hids hc0
    have hdd : dp.1 = d2 := by
      rw [hm0] at hd2
      exact Option.some.inj hd2
    rw [he0, hdd]
    exact serialize_empty_of_agrees c0 d2 hagree

/-- Witness for C3 (amended) at the counterexample input: the second run
deletes nothing, creates nothing, and its only patch serializes to an
empty body. -/
theorem c3_second_run_no_effective_calls_witness :
    (registerCommandsCalls
      [{ name := "foo", type := some 2, description := none, options := none, contexts := none }]
      (registerCommandsRemote
        [{ name := "foo", type := some 2, description := none, options := none, contexts := none }]
        [{ id := 10, name := "foo", type := 2, description := "", options := none,
           integration_types := none, contexts := none }])).removes = [] ∧
    (registerCommandsCalls
      [{ name := "foo", type := some 2, description := none, options := none, contexts := none }]
      (registerCommandsRemote
        [{ name := "foo", type := some 2, description := none, options := none, contexts := none }]
        [{ id := 10, name := "foo", type := 2, description := "", options := none,
           integration_types := none, contexts := none }])).creates = [] ∧
    ∀ dp ∈ (registerCommandsCalls
      [{ name := "foo", type := some 2, description := none, options := none, contexts := none }]
      (registerCommandsRemote
        [{ name := "foo", type := some 2, description := none, options := none, contexts := none }]
        [{ id := 10, name := "foo", type := 2, description := "", options := none,
           integration_types := none, contexts := none }])).patches,
      serializePatch dp.2 =
        ({ name := none, type := none, description := none, options := none,
           integration_types := none, contexts := none } : PatchBody) :=
  c3_second_run_no_effective_calls
    [{ name := "foo", type := some 2, description := none, options := none, contexts := none }]
    [{ id := 10, name := "foo", type := 2, description := "", options := none,
       integration_types := none, contexts := none }]
    (by decide)

end WorkersDiscord
